import Mathlib

/-!
Verification of the EasyRecruit resume parser and matching engine
(`backend/resume_parser.py`, `backend/app.py`).

The Python code is shallowly embedded: strings are `String`/`List Char`,
Python dictionaries are association lists or fixed-field structures,
Python floats are modelled as exact rationals (`ℚ`), and the external
clock (`datetime.now()`) is passed as an explicit parameter.  Python
regular expressions are embedded by a small backtracking matcher over a
pattern AST; each Python pattern literal is transcribed into that AST at
its point of use.  Fallible operations (a `KeyError`/`TypeError` escaping
to the route's `except` handler) are modelled with `Option`/explicit
error constructors.
-/

/-! ## Character and whitespace utilities

`isPySpace` models the character set matched by Python's `\s` (and
stripped by `str.strip()`): ASCII whitespace plus the Unicode whitespace
code points recognised by CPython. -/

def isPySpace (c : Char) : Bool :=
  c == ' ' || c == '\t' || c == '\n' || c == '\r' || c == '\x0b' || c == '\x0c' ||
  c == '\x1c' || c == '\x1d' || c == '\x1e' || c == '\x1f' || c == '\x85' ||
  c == '\xa0' || c == ' ' ||
  ((' ' ≤ c) && (c ≤ ' ')) ||
  c == ' ' || c == ' ' || c == ' ' || c == ' ' || c == '　'

/-- Python's `str.strip()` on a character list. -/
def pyStrip (l : List Char) : List Char :=
  ((l.dropWhile isPySpace).reverse.dropWhile isPySpace).reverse

/-- Replace every maximal run of characters satisfying `p` by the single
character `r`.  With `p := isPySpace`, `r := ' '` this is
`re.sub(r'\s+', ' ', ·)`; with `p := isNonAscii` it is
`re.sub(r'[^\x00-\x7F]+', ' ', ·)`.  The `Bool` argument records whether
the previous character was inside a run. -/
def runRepl (p : Char → Bool) (r : Char) : Bool → List Char → List Char
  | _, [] => []
  | inRun, c :: cs =>
    if p c then
      if inRun then runRepl p r true cs else r :: runRepl p r true cs
    else c :: runRepl p r false cs

/-- Characters outside `\x00-\x7F`. -/
def isNonAscii (c : Char) : Bool := decide (127 < c.toNat)

/-- The bullet glyphs of `re.sub(r'^[•·▪▫◦‣⁃]\s*', '', ·)`. -/
def bulletChars : List Char := ['•', '·', '▪', '▫', '◦', '‣', '⁃']

/-- `re.sub(r'^[•·▪▫◦‣⁃]\s*', '', ·)`: drop one leading bullet glyph and
the whitespace run following it. -/
def stripBullet : List Char → List Char
  | [] => []
  | c :: cs => if c ∈ bulletChars then cs.dropWhile isPySpace else c :: cs

/-- `UniversalResumeParser.clean_text` on a character list: strip, collapse
whitespace, strip a leading bullet, replace non-ASCII runs by a space,
collapse whitespace again, strip. -/
def cleanChars (l : List Char) : List Char :=
  if l = [] then []
  else
    pyStrip (runRepl isPySpace ' ' false
      (runRepl isNonAscii ' ' false
        (stripBullet (runRepl isPySpace ' ' false (pyStrip l)))))

/-- `UniversalResumeParser.clean_text`. -/
def clean_text (s : String) : String := ⟨cleanChars s.data⟩

/-! ### Normal forms of cleaned text -/

/-- No two adjacent characters both satisfy `p`. -/
def NoTwo (p : Char → Bool) (l : List Char) : Prop :=
  l.Chain' (fun a b => ¬(p a = true ∧ p b = true))

theorem runRepl_mem {p : Char → Bool} {r : Char} {b : Bool} {l : List Char} {c : Char}
    (h : c ∈ runRepl p r b l) : c = r ∨ (c ∈ l ∧ p c = false) := by
  induction l generalizing b with
  | nil => simp [runRepl] at h
  | cons x xs ih =>
    by_cases hx : p x = true
    · cases b with
      | true =>
        simp only [runRepl, hx, if_pos] at h
        rcases ih h with h' | ⟨h1, h2⟩
        · exact Or.inl h'
        · exact Or.inr ⟨List.mem_cons_of_mem _ h1, h2⟩
      | false =>
        simp only [runRepl, hx, if_pos] at h
        rcases List.mem_cons.mp h with h' | h'
        · exact Or.inl h'
        · rcases ih h' with h'' | ⟨h1, h2⟩
          · exact Or.inl h''
          · exact Or.inr ⟨List.mem_cons_of_mem _ h1, h2⟩
    · simp only [runRepl, hx, if_neg, Bool.false_eq_true, not_false_iff] at h
      rcases List.mem_cons.mp h with h' | h'
      · subst h'
        exact Or.inr ⟨List.mem_cons_self _ _, Bool.eq_false_iff.mpr hx⟩
      · rcases ih h' with h'' | ⟨h1, h2⟩
        · exact Or.inl h''
        · exact Or.inr ⟨List.mem_cons_of_mem _ h1, h2⟩

/-- The head of a `runRepl` continuation with `inRun = true` never satisfies `p`. -/
theorem runRepl_true_head {p : Char → Bool} {r : Char} {l : List Char} {c : Char}
    (h : (runRepl p r true l).head? = some c) : p c = false := by
  induction l with
  | nil => simp [runRepl] at h
  | cons x xs ih =>
    by_cases hx : p x = true
    · simp only [runRepl, hx, if_pos] at h
      exact ih h
    · simp only [runRepl, hx, if_neg, Bool.false_eq_true, not_false_iff,
        List.head?_cons, Option.some.injEq] at h
      subst h
      exact Bool.eq_false_iff.mpr hx

theorem runRepl_noTwo (p : Char → Bool) (r : Char) :
    ∀ (b : Bool) (l : List Char), NoTwo p (runRepl p r b l) := by
  intro b l
  induction l generalizing b with
  | nil => simp [runRepl, NoTwo]
  | cons x xs ih =>
    by_cases hx : p x = true
    · cases b with
      | true => simpa [runRepl, hx] using ih true
      | false =>
        simp only [runRepl, hx, if_pos]
        refine List.chain'_cons'.mpr ⟨?_, ih true⟩
        intro y hy h2
        rw [runRepl_true_head hy] at h2
        exact absurd h2.2 (by simp)
    · simp only [runRepl, hx, if_neg, Bool.false_eq_true, not_false_iff]
      refine List.chain'_cons'.mpr ⟨?_, ih false⟩
      intro y _ h2
      exact absurd h2.1 (by simp [hx])

/-- `runRepl` is the identity on lists where no character satisfies `p`. -/
theorem runRepl_id_of_not {p : Char → Bool} {r : Char} {l : List Char}
    (h : ∀ c ∈ l, p c = false) : ∀ b, runRepl p r b l = l := by
  induction l with
  | nil => intro b; rfl
  | cons x xs ih =>
    intro b
    have hx := h x (List.mem_cons_self _ _)
    simp only [runRepl, hx, Bool.false_eq_true, if_neg, not_false_iff]
    rw [ih (fun c hc => h c (List.mem_cons_of_mem _ hc))]

theorem runRepl_true_eq_false_of_head {p : Char → Bool} {r : Char} {l : List Char}
    (h : ∀ c, l.head? = some c → p c = false) :
    runRepl p r true l = runRepl p r false l := by
  cases l with
  | nil => rfl
  | cons x xs =>
    have hx := h x rfl
    simp [runRepl, hx]

/-- `runRepl` is the identity on lists in normal form: every `p`-character
is already `r` and no two are adjacent. -/
theorem runRepl_id {p : Char → Bool} {r : Char} {l : List Char}
    (hall : ∀ c ∈ l, p c = true → c = r) (hnt : NoTwo p l) :
    runRepl p r false l = l := by
  induction l with
  | nil => rfl
  | cons x xs ih =>
    have htail : NoTwo p xs := (List.chain'_cons'.mp hnt).2
    have ihx := ih (fun c hc => hall c (List.mem_cons_of_mem _ hc)) htail
    by_cases hx : p x = true
    · have hxr : x = r := hall x (List.mem_cons_self _ _) hx
      have hhead : ∀ c, xs.head? = some c → p c = false := by
        intro c hc
        have := (List.chain'_cons'.mp hnt).1 c hc
        by_contra hcp
        exact this ⟨hx, by simpa using hcp⟩
      simp only [runRepl, hx, if_pos, if_neg, Bool.not_eq_true]
      rw [runRepl_true_eq_false_of_head hhead, ihx, hxr]
    · simp only [runRepl, hx, Bool.false_eq_true, if_neg, not_false_iff]
      rw [ihx]

theorem dropWhile_head_not {p : Char → Bool} {l : List Char} {c : Char}
    (h : (l.dropWhile p).head? = some c) : p c = false := by
  induction l with
  | nil => simp [List.dropWhile] at h
  | cons x xs ih =>
    by_cases hx : p x = true
    · rw [List.dropWhile_cons, if_pos hx] at h
      exact ih h
    · rw [List.dropWhile_cons, if_neg hx] at h
      simp only [List.head?_cons, Option.some.injEq] at h
      subst h
      exact Bool.eq_false_iff.mpr hx

theorem dropWhile_eq_self_of_head {p : Char → Bool} {l : List Char}
    (h : ∀ c, l.head? = some c → p c = false) : l.dropWhile p = l := by
  cases l with
  | nil => rfl
  | cons x xs => rw [List.dropWhile_cons, if_neg (by simp [h x rfl])]

/-- `pyStrip` is the identity when neither end is whitespace. -/
theorem pyStrip_id {l : List Char}
    (hh : ∀ c, l.head? = some c → isPySpace c = false)
    (hl : ∀ c, l.getLast? = some c → isPySpace c = false) : pyStrip l = l := by
  unfold pyStrip
  rw [dropWhile_eq_self_of_head hh]
  rw [dropWhile_eq_self_of_head (by
    intro c hc
    rw [List.head?_reverse] at hc
    exact hl c hc)]
  exact List.reverse_reverse l

theorem pyStrip_head_not {l : List Char} {c : Char}
    (h : (pyStrip l).head? = some c) : isPySpace c = false := by
  unfold pyStrip at h
  rw [List.head?_reverse] at h
  -- head? of reverse is getLast?; use that dropWhile yields a suffix
  have hsuff : (((l.dropWhile isPySpace).reverse).dropWhile isPySpace) <:+
      (l.dropWhile isPySpace).reverse := List.dropWhile_suffix _
  rcases hsuff with ⟨t, ht⟩
  by_cases hne : ((l.dropWhile isPySpace).reverse.dropWhile isPySpace) = []
  · rw [hne] at h; simp at h
  · have h2 : ((l.dropWhile isPySpace).reverse).getLast? = some c := by
      rw [← ht, List.getLast?_append_of_ne_nil t hne]; exact h
    rw [List.getLast?_reverse] at h2
    exact dropWhile_head_not h2

theorem pyStrip_getLast_not {l : List Char} {c : Char}
    (h : (pyStrip l).getLast? = some c) : isPySpace c = false := by
  unfold pyStrip at h
  rw [List.getLast?_reverse] at h
  exact dropWhile_head_not h

theorem pyStrip_mem {l : List Char} {c : Char} (h : c ∈ pyStrip l) : c ∈ l := by
  unfold pyStrip at h
  rw [List.mem_reverse] at h
  have h1 := (List.dropWhile_suffix (l := (l.dropWhile isPySpace).reverse)
    (p := isPySpace)).mem h
  rw [List.mem_reverse] at h1
  exact (List.dropWhile_suffix (l := l) (p := isPySpace)).mem h1

theorem noTwo_dropWhile {p : Char → Bool} {l : List Char} (h : NoTwo p l) :
    NoTwo p (l.dropWhile p) := by
  induction l with
  | nil => exact h
  | cons x xs ih =>
    rw [List.dropWhile_cons]
    rcases List.chain'_cons'.mp h with ⟨_, htail⟩
    by_cases hx : p x = true
    · rw [if_pos hx]; exact ih htail
    · rw [if_neg hx]; exact h

theorem noTwo_reverse {p : Char → Bool} {l : List Char} (h : NoTwo p l) :
    NoTwo p l.reverse := by
  unfold NoTwo at *
  rw [List.chain'_reverse]
  exact h.imp (fun a b hab => by
    intro hc
    exact hab ⟨hc.2, hc.1⟩)

theorem noTwo_pyStrip {l : List Char} (h : NoTwo isPySpace l) :
    NoTwo isPySpace (pyStrip l) := by
  unfold pyStrip
  exact noTwo_reverse (noTwo_dropWhile (noTwo_reverse (noTwo_dropWhile h)))

/-- The character-level normal form produced by `cleanChars`: all ASCII,
every whitespace character is a plain space, no two adjacent whitespace
characters, and no whitespace at either end. -/
structure CleanNF (l : List Char) : Prop where
  ascii : ∀ c ∈ l, isNonAscii c = false
  wsSpace : ∀ c ∈ l, isPySpace c = true → c = ' '
  noTwo : NoTwo isPySpace l
  headNot : ∀ c, l.head? = some c → isPySpace c = false
  lastNot : ∀ c, l.getLast? = some c → isPySpace c = false

theorem cleanChars_nf (l : List Char) : CleanNF (cleanChars l) := by
  unfold cleanChars
  by_cases hl : l = []
  · rw [if_pos hl]
    exact ⟨by simp, by simp, by simp [NoTwo], by simp, by simp⟩
  · rw [if_neg hl]
    set t3 := runRepl isNonAscii ' ' false
      (stripBullet (runRepl isPySpace ' ' false (pyStrip l))) with ht3
    set t4 := runRepl isPySpace ' ' false t3 with ht4
    refine ⟨?_, ?_, noTwo_pyStrip (runRepl_noTwo _ _ _ _), ?_, ?_⟩
    · intro c hc
      have hc4 := pyStrip_mem hc
      rcases runRepl_mem hc4 with h' | ⟨h1, _⟩
      · subst h'; decide
      · rcases runRepl_mem h1 with h' | ⟨_, h2⟩
        · subst h'; decide
        · exact h2
    · intro c hc hws
      have hc4 := pyStrip_mem hc
      rcases runRepl_mem hc4 with h' | ⟨_, h2⟩
      · exact h'
      · rw [hws] at h2; cases h2
    · intro c hc; exact pyStrip_head_not hc
    · intro c hc; exact pyStrip_getLast_not hc

/-- Bullet glyphs are not ASCII. -/
theorem bullet_nonAscii : ∀ c ∈ bulletChars, isNonAscii c = true := by decide

theorem stripBullet_id {l : List Char} (h : ∀ c ∈ l, isNonAscii c = false) :
    stripBullet l = l := by
  cases l with
  | nil => rfl
  | cons x xs =>
    have hx := h x (List.mem_cons_self _ _)
    have : x ∉ bulletChars := by
      intro hmem
      rw [bullet_nonAscii x hmem] at hx
      cases hx
    simp [stripBullet, this]

/-- `cleanChars` is the identity on its own normal forms. -/
theorem cleanChars_id_of_nf {l : List Char} (h : CleanNF l) : cleanChars l = l := by
  unfold cleanChars
  by_cases hl : l = []
  · rw [if_pos hl, hl]
  · rw [if_neg hl]
    rw [pyStrip_id h.headNot h.lastNot]
    rw [runRepl_id h.wsSpace h.noTwo]
    rw [stripBullet_id h.ascii]
    rw [runRepl_id_of_not h.ascii]
    rw [runRepl_id h.wsSpace h.noTwo]
    exact pyStrip_id h.headNot h.lastNot

/-- **C5.** The text normalizer is idempotent: applying `clean_text` twice
yields the same result as applying it once, for every input string. -/
theorem clean_text_idempotent (s : String) :
    clean_text (clean_text s) = clean_text s := by
  unfold clean_text
  exact congrArg String.mk (cleanChars_id_of_nf (cleanChars_nf s.data))

/-! ## Substring containment and lowering

`occursIn sub s` models Python's `sub in s`; `lowerStr` models
`str.lower()` (ASCII case mapping, which covers every string these
heuristics compare). -/

def leadsList : List Char → List Char → Bool
  | [], _ => true
  | _ :: _, [] => false
  | a :: as, b :: bs => a == b && leadsList as bs

def occursList (sub : List Char) : List Char → Bool
  | [] => sub.isEmpty
  | c :: cs => leadsList sub (c :: cs) || occursList sub cs

def occursIn (sub s : String) : Bool := occursList sub.data s.data

def lowerStr (s : String) : String := ⟨s.data.map Char.toLower⟩

/-! ## Section boundary detector (`find_section_boundaries`) -/

def experience_keywords : List String :=
  ["experience", "employment", "work history", "professional experience",
   "career history", "work experience", "professional background",
   "employment history", "recent experience", "relevant experience"]

def education_keywords : List String :=
  ["education", "academic background", "academic qualifications",
   "educational background", "academic history", "qualifications",
   "degrees", "academic credentials"]

def skills_keywords : List String :=
  ["skills", "technical skills", "core competencies", "competencies",
   "technical competencies", "key skills", "expertise", "proficiencies",
   "technologies", "technical proficiencies", "core skills",
   "technical expertise", "skill set"]

def certification_keywords : List String :=
  ["certifications", "certificates", "professional certifications",
   "licenses", "credentials", "professional credentials",
   "professional licenses", "industry certifications"]

def projects_keywords : List String :=
  ["projects", "project", "personal projects", "professional projects",
   "key projects", "selected projects", "academic projects"]

def summary_keywords : List String :=
  ["summary", "objective", "profile", "about", "professional summary",
   "career summary"]

def isAlphaAscii (c : Char) : Bool :=
  (('a' ≤ c) && (c ≤ 'z')) || (('A' ≤ c) && (c ≤ 'Z'))

/-- The skip test of `find_section_boundaries`:
`len(line_clean) < 3 or len(re.sub(r'[a-zA-Z]', '', line_clean)) > len(line_clean) * 0.7`.
The float comparison `nonalpha > 0.7 * len` is modelled by the exact
rational comparison, cleared of denominators: `10 * nonalpha > 7 * len`. -/
def skipLine (lineClean : List Char) : Bool :=
  lineClean.length < 3 ||
    7 * lineClean.length < 10 * (lineClean.filter fun c => !isAlphaAscii c).length

def known_section_headers : List String :=
  ["experience", "education", "certifications", "skills", "projects", "summary"]

/-- `UniversalResumeParser._is_section_header`. -/
def isSectionHeader (line : String) : Bool :=
  let lineLower := lowerStr ⟨pyStrip line.data⟩
  if line.length == 0 || 50 < line.length then false
  else known_section_headers.any fun h => occursIn h lineLower

/-- The section-boundary dictionary: one optional first-header index per
section kind (a missing Python dict key is `none`). -/
structure SectionIndices where
  experience : Option Nat
  education : Option Nat
  skills : Option Nat
  certifications : Option Nat
  projects : Option Nat
  summary : Option Nat
deriving Repr, DecidableEq

def emptyBounds : SectionIndices := ⟨none, none, none, none, none, none⟩

/-- Python truthiness of `section_indices.get(kind)`:
`None` and `0` are falsy. -/
def truthyIdx : Option Nat → Bool
  | none => false
  | some n => n != 0

@[simp] theorem truthyIdx_none : truthyIdx none = false := rfl

@[simp] theorem truthyIdx_some (n : Nat) : truthyIdx (some n) = (n != 0) := rfl

/-- One iteration of the `for i, line in enumerate(lines)` loop of
`find_section_boundaries`. -/
def sbStep (st : SectionIndices) (i : Nat) (line : String) : SectionIndices :=
  let lineClean := clean_text line
  let lineLower := lowerStr lineClean
  if skipLine lineLower.data then st
  else
    let hdr := isSectionHeader lineClean
    let upd : Option Nat → List String → Option Nat := fun cur kws =>
      if !truthyIdx cur && ((kws.any fun k => occursIn k lineLower) && hdr)
      then some i else cur
    ⟨upd st.experience experience_keywords,
     upd st.education education_keywords,
     upd st.skills skills_keywords,
     upd st.certifications certification_keywords,
     upd st.projects projects_keywords,
     upd st.summary summary_keywords⟩

/-- `UniversalResumeParser.find_section_boundaries`. -/
def find_section_boundaries (lines : List String) : SectionIndices :=
  lines.enum.foldl (fun st p => sbStep st p.1 p.2) emptyBounds

inductive SectionKind where
  | experience | education | skills | certifications | projects | summary
deriving Repr, DecidableEq

def kindKeywords : SectionKind → List String
  | .experience => experience_keywords
  | .education => education_keywords
  | .skills => skills_keywords
  | .certifications => certification_keywords
  | .projects => projects_keywords
  | .summary => summary_keywords

def getBound (st : SectionIndices) : SectionKind → Option Nat
  | .experience => st.experience
  | .education => st.education
  | .skills => st.skills
  | .certifications => st.certifications
  | .projects => st.projects
  | .summary => st.summary

/-- A line qualifies as a boundary candidate for kind `k`: it survives the
skip test, mentions one of the kind's keywords, and passes
`_is_section_header`. -/
def lineQualifies (k : SectionKind) (line : String) : Bool :=
  let lineClean := clean_text line
  let lineLower := lowerStr lineClean
  !skipLine lineLower.data &&
    ((kindKeywords k).any fun s => occursIn s lineLower) &&
    isSectionHeader lineClean

theorem getBound_sbStep (st : SectionIndices) (i : Nat) (line : String) (k : SectionKind) :
    getBound (sbStep st i line) k =
      if !truthyIdx (getBound st k) && lineQualifies k line then some i
      else getBound st k := by
  by_cases hs : skipLine (lowerStr (clean_text line)).data = true
  · cases k <;>
      simp [sbStep, lineQualifies, getBound, hs, Bool.and_assoc]
  · rw [Bool.not_eq_true] at hs
    cases k <;>
      · simp only [sbStep, lineQualifies, getBound, hs, Bool.false_eq_true, if_neg,
          not_false_iff, Bool.not_false, Bool.true_and, kindKeywords, Bool.and_assoc]

/-- The indices of the lines qualifying for kind `k` (in order). -/
def qualIdx (k : SectionKind) (ps : List (Nat × String)) : List Nat :=
  (ps.filter fun p => lineQualifies k p.2).map Prod.fst

/-- The boundary `find_section_boundaries` actually records for a kind:
the first qualifying index — except that a kind first found at line 0 is
overwritten by the next qualifying line, because `0` is falsy in the
`if not section_indices.get(kind)` check. -/
def expectedBoundary (lines : List String) (k : SectionKind) : Option Nat :=
  match qualIdx k lines.enum with
  | [] => none
  | 0 :: rest => some (rest.headD 0)
  | j :: _ => some j

def boundFold (k : SectionKind) (cur : Option Nat) (ps : List (Nat × String)) : Option Nat :=
  ps.foldl (fun c p => if !truthyIdx c && lineQualifies k p.2 then some p.1 else c) cur

theorem getBound_foldl (k : SectionKind) (ps : List (Nat × String)) (st : SectionIndices) :
    getBound (ps.foldl (fun s p => sbStep s p.1 p.2) st) k =
      boundFold k (getBound st k) ps := by
  induction ps generalizing st with
  | nil => rfl
  | cons p ps ih =>
    rw [List.foldl_cons, ih]
    have h2 : boundFold k (getBound st k) (p :: ps) =
        boundFold k (if !truthyIdx (getBound st k) && lineQualifies k p.2
          then some p.1 else getBound st k) ps := rfl
    rw [h2, ← getBound_sbStep]

theorem boundFold_sticky {k : SectionKind} {cur : Option Nat}
    (h : truthyIdx cur = true) (ps : List (Nat × String)) :
    boundFold k cur ps = cur := by
  induction ps with
  | nil => rfl
  | cons p ps ih =>
    rw [boundFold, List.foldl_cons, h]
    exact ih

/-- With only positive indices remaining, a falsy current value is simply
replaced by the first qualifying index (which then sticks). -/
theorem boundFold_pos {k : SectionKind} {ps : List (Nat × String)}
    (hpos : ∀ x ∈ ps, 0 < x.1) {cur : Option Nat} (hcur : truthyIdx cur = false) :
    boundFold k cur ps =
      match (qualIdx k ps).head? with
      | some j => some j
      | none => cur := by
  induction ps with
  | nil => rfl
  | cons p ps ih =>
    by_cases hq : lineQualifies k p.2 = true
    · have hp0 : 0 < p.1 := hpos p (List.mem_cons_self _ _)
      rw [boundFold, List.foldl_cons, hcur]
      simp only [Bool.not_false, Bool.true_and, hq, if_pos]
      have : truthyIdx (some p.1) = true := by
        simp [Nat.pos_iff_ne_zero.mp hp0]
      rw [show List.foldl (fun c q => if !truthyIdx c && lineQualifies k q.2
          then some q.1 else c) (some p.1) ps = boundFold k (some p.1) ps from rfl,
        boundFold_sticky this]
      simp [qualIdx, hq]
    · rw [boundFold, List.foldl_cons, hcur]
      simp only [Bool.not_false, Bool.true_and, hq, if_neg, Bool.false_eq_true,
        not_false_iff]
      rw [show List.foldl (fun c q => if !truthyIdx c && lineQualifies k q.2
          then some q.1 else c) cur ps = boundFold k cur ps from rfl,
        ih (fun x hx => hpos x (List.mem_cons_of_mem _ hx))]
      simp [qualIdx, hq]

theorem mem_qualIdx_enumFrom {k : SectionKind} {n j : Nat} {ls : List String}
    (h : j ∈ qualIdx k (List.enumFrom n ls)) : n ≤ j := by
  unfold qualIdx at h
  rcases List.mem_map.mp h with ⟨p, hp, hj⟩
  have := List.mem_enumFrom (List.mem_filter.mp hp).1
  omega

/-- **C6 (amended).** For every line list and section kind, the recorded
boundary is the index of the first qualifying line — except that a kind
whose first qualifying line is line 0 is remapped to the next qualifying
line (if any), because index 0 is falsy in the
`if not section_indices.get(kind)` re-check.  Later candidates otherwise
never change a recorded index. -/
theorem find_section_boundaries_characterization (lines : List String) (k : SectionKind) :
    getBound (find_section_boundaries lines) k = expectedBoundary lines k := by
  unfold find_section_boundaries expectedBoundary
  rw [getBound_foldl]
  cases lines with
  | nil => cases k <;> rfl
  | cons l0 rest =>
    rw [List.enum_cons]
    have hcur0 : getBound emptyBounds k = none := by cases k <;> rfl
    rw [hcur0]
    by_cases hq : lineQualifies k l0 = true
    · rw [boundFold, List.foldl_cons]
      simp only [truthyIdx_none, Bool.not_false, Bool.true_and, hq, if_pos]
      rw [show List.foldl (fun c q => if !truthyIdx c && lineQualifies k q.2
          then some q.1 else c) (some 0) (List.enumFrom 1 rest) =
          boundFold k (some 0) (List.enumFrom 1 rest) from rfl]
      rw [boundFold_pos (fun x hx => (List.mem_enumFrom hx).1) (by rfl)]
      have hqual : qualIdx k ((0, l0) :: List.enumFrom 1 rest) =
          0 :: qualIdx k (List.enumFrom 1 rest) := by
        simp [qualIdx, hq]
      rw [hqual]
      cases qualIdx k (List.enumFrom 1 rest) with
      | nil => rfl
      | cons j t => rfl
    · rw [boundFold, List.foldl_cons]
      simp only [truthyIdx_none, Bool.not_false, Bool.true_and, hq, Bool.false_eq_true,
        if_neg, not_false_iff]
      rw [show List.foldl (fun c q => if !truthyIdx c && lineQualifies k q.2
          then some q.1 else c) none (List.enumFrom 1 rest) =
          boundFold k none (List.enumFrom 1 rest) from rfl]
      rw [boundFold_pos (fun x hx => (List.mem_enumFrom hx).1) (by rfl)]
      have hqual : qualIdx k ((0, l0) :: List.enumFrom 1 rest) =
          qualIdx k (List.enumFrom 1 rest) := by
        simp [qualIdx, hq]
      rw [hqual]
      cases hq2 : qualIdx k (List.enumFrom 1 rest) with
      | nil => rfl
      | cons j t =>
        have hj : 1 ≤ j := mem_qualIdx_enumFrom (hq2 ▸ List.mem_cons_self j t)
        cases j with
        | zero => omega
        | succ n => rfl

/-- **C6 (counterexample).** The claim "once a kind has been found, later
candidate lines for that kind never change the recorded index — including
when the first matching line is at index 0" fails: with lines
`["Experience", "Experience"]` the EXPERIENCE boundary found at index 0 is
overwritten by the match at index 1. -/
theorem find_section_boundaries_zero_overwritten :
    (find_section_boundaries ["Experience", "Experience"]).experience = some 1 := by
  decide

theorem find_section_boundaries_take_succ (lines : List String) (i : Nat)
    (hi : i < lines.length) :
    find_section_boundaries (lines.take (i + 1)) =
      sbStep (find_section_boundaries (lines.take i)) i (lines.get ⟨i, hi⟩) := by
  unfold find_section_boundaries
  rw [List.take_succ]
  have hget : lines[i]? = some (lines.get ⟨i, hi⟩) := by
    rw [List.getElem?_eq_getElem hi]
    rfl
  rw [hget]
  simp only [Option.toList_some]
  rw [List.enum_append, List.foldl_append]
  have hlen : (lines.take i).length = i := by
    rw [List.length_take]
    omega
  rw [hlen]
  rfl

/-- **C7 (counterexample).** The single line `"Objective"` passes the skip
rules (length ≥ 3, non-alphabetic density ≤ 70%), its lowercase trimmed
form contains the summary stem `"objective"`, and its length is ≤ 50 —
yet the detector records no SUMMARY boundary, because
`_is_section_header` only recognises the six exact section words and
`"objective"` contains none of them. -/
theorem objective_line_not_recorded :
    (find_section_boundaries ["Objective"]).summary = none ∧
    skipLine (lowerStr (clean_text "Objective")).data = false ∧
    occursIn "objective" (lowerStr (clean_text "Objective")) = true ∧
    (clean_text "Objective").length ≤ 50 := by
  decide

/-- **C7 (amended).** A line that passes the skip rules, whose lowercase
cleaned form contains one of the summary stems `"objective"`, `"profile"`
or `"about"` **and also one of the six known section words**, and whose
cleaned length is ≤ 50, is recognised as a header and recorded as the
SUMMARY boundary when no earlier SUMMARY line has been found. -/
theorem summary_boundary_recorded (lines : List String) (i : Nat) (hi : i < lines.length)
    (hskip : skipLine (lowerStr (clean_text (lines.get ⟨i, hi⟩))).data = false)
    (hstem : (["objective", "profile", "about"].any fun k =>
        occursIn k (lowerStr (clean_text (lines.get ⟨i, hi⟩)))) = true)
    (hsix : (known_section_headers.any fun k =>
        occursIn k (lowerStr (clean_text (lines.get ⟨i, hi⟩)))) = true)
    (hlen : (clean_text (lines.get ⟨i, hi⟩)).length ≤ 50)
    (hnone : (find_section_boundaries (lines.take i)).summary = none) :
    (find_section_boundaries (lines.take (i + 1))).summary = some i := by
  set line := lines.get ⟨i, hi⟩ with hline
  have hps : pyStrip (clean_text line).data = (clean_text line).data := by
    have hnf := cleanChars_nf line.data
    exact pyStrip_id hnf.headNot hnf.lastNot
  have hlen3 : 3 ≤ (clean_text line).data.length := by
    unfold skipLine at hskip
    simp only [Bool.or_eq_false_iff, decide_eq_false_iff_not, Nat.not_lt] at hskip
    have h1 := hskip.1
    simpa [lowerStr] using h1
  have hhdr : isSectionHeader (clean_text line) = true := by
    unfold isSectionHeader
    have hcond : ((clean_text line).length == 0 ||
        decide (50 < (clean_text line).length)) = false := by
      have : (clean_text line).length = (clean_text line).data.length := rfl
      simp only [Bool.or_eq_false_iff, beq_eq_false_iff_ne, ne_eq, decide_eq_false_iff_not,
        Nat.not_lt]
      constructor
      · omega
      · exact hlen
    rw [if_neg (by simp [hcond])]
    have : (⟨pyStrip (clean_text line).data⟩ : String) = clean_text line := by
      rw [hps]
    rw [this]
    exact hsix
  have hany : (summary_keywords.any fun k =>
      occursIn k (lowerStr (clean_text line))) = true := by
    rcases List.any_eq_true.mp hstem with ⟨k, hk, hocc⟩
    refine List.any_eq_true.mpr ⟨k, ?_, hocc⟩
    simp only [List.mem_cons, List.not_mem_nil, or_false] at hk
    rcases hk with rfl | rfl | rfl <;> simp [summary_keywords]
  rw [find_section_boundaries_take_succ lines i hi]
  show (sbStep (find_section_boundaries (lines.take i)) i line).summary = some i
  unfold sbStep
  rw [if_neg (by simp [hskip])]
  show (if !truthyIdx (find_section_boundaries (lines.take i)).summary &&
      ((summary_keywords.any fun k => occursIn k (lowerStr (clean_text line))) &&
        isSectionHeader (clean_text line))
    then some i else (find_section_boundaries (lines.take i)).summary) = some i
  rw [hnone, hany, hhdr]
  rfl

/-! ## A small backtracking regular-expression engine

Python's `re` patterns used by the parser are transcribed into the `RE`
AST below.  `mrun` enumerates the candidate match ends at a position in
backtracking priority order (greedy repetition tries longer first, lazy
repetition shorter first, alternation tries the left branch first), so
the head of the returned list is the match Python's engine picks.
`reSearch` implements `re.search` (leftmost match), `findAllRe`
implements `re.findall`/`finditer` scanning. -/

inductive RE where
  | eps : RE
  | cls : (Char → Bool) → RE
  | seq : RE → RE → RE
  | alt : RE → RE → RE
  | star : RE → RE
  | lstar : RE → RE
  | grp : Nat → RE → RE
  | wordB : RE
  | bos : RE
  | eos : RE

/-- Capture list: `(group, start, end)`, most recent first. -/
abbrev Caps := List (Nat × Nat × Nat)

/-- Python `\w` (ASCII range). -/
def isWordChar (c : Char) : Bool :=
  (('a' ≤ c) && (c ≤ 'z')) || (('A' ≤ c) && (c ≤ 'Z')) ||
  (('0' ≤ c) && (c ≤ '9')) || c == '_'

/-- Python `\b` at position `i`. -/
def wordBoundaryAt (s : List Char) (i : Nat) : Bool :=
  let before := match s.get? (i - 1) with
    | some c => if i = 0 then false else isWordChar c
    | none => false
  let after := match s.get? i with
    | some c => isWordChar c
    | none => false
  before != after

def starIter (step : Nat → Caps → List (Nat × Caps)) : Nat → Nat → Caps → List (Nat × Caps)
  | 0, i, cp => [(i, cp)]
  | fuel + 1, i, cp =>
    (((step i cp).filter fun q => i < q.1).flatMap fun q => starIter step fuel q.1 q.2)
      ++ [(i, cp)]

def lstarIter (step : Nat → Caps → List (Nat × Caps)) : Nat → Nat → Caps → List (Nat × Caps)
  | 0, i, cp => [(i, cp)]
  | fuel + 1, i, cp =>
    [(i, cp)] ++
      (((step i cp).filter fun q => i < q.1).flatMap fun q => lstarIter step fuel q.1 q.2)

def mrun (s : List Char) : RE → Nat → Caps → List (Nat × Caps)
  | .eps, i, cp => [(i, cp)]
  | .cls p, i, cp =>
    match s.get? i with
    | some c => if p c then [(i + 1, cp)] else []
    | none => []
  | .seq a b, i, cp => (mrun s a i cp).flatMap fun q => mrun s b q.1 q.2
  | .alt a b, i, cp => mrun s a i cp ++ mrun s b i cp
  | .star r, i, cp => starIter (fun j c => mrun s r j c) (s.length + 1) i cp
  | .lstar r, i, cp => lstarIter (fun j c => mrun s r j c) (s.length + 1) i cp
  | .grp g r, i, cp => (mrun s r i cp).map fun q => (q.1, (g, i, q.1) :: q.2)
  | .wordB, i, cp => if wordBoundaryAt s i then [(i, cp)] else []
  | .bos, i, cp => if i = 0 then [(i, cp)] else []
  | .eos, i, cp => if i = s.length then [(i, cp)] else []

/-- `re.search` scanning from position `i` (fueled; `fuel = length + 1`
always suffices).  Returns `(start, end, captures)`. -/
def searchAux (s : List Char) (r : RE) : Nat → Nat → Option (Nat × Nat × Caps)
  | 0, _ => none
  | fuel + 1, i =>
    match mrun s r i [] with
    | q :: _ => some (i, q.1, q.2)
    | [] => if i < s.length then searchAux s r fuel (i + 1) else none

/-- `re.search`. -/
def reSearch (s : String) (r : RE) : Option (Nat × Nat × Caps) :=
  searchAux s.data r (s.data.length + 1) 0

/-- `re.match` (anchored at the start, no scanning). -/
def reMatchStart (s : String) (r : RE) : Option (Nat × Nat × Caps) :=
  match mrun s.data r 0 [] with
  | q :: _ => some (0, q.1, q.2)
  | [] => none

def subChars (s : List Char) (a b : Nat) : List Char := (s.drop a).take (b - a)

/-- `m.group(g)` of a match over `s` (absent if the group did not match). -/
def capGroup (s : List Char) (cps : Caps) (g : Nat) : Option String :=
  (cps.find? fun t => t.1 == g).map fun t => ⟨subChars s t.2.1 t.2.2⟩

/-- All non-overlapping matches (as in `re.finditer`/`re.findall`); an
empty match advances one position. -/
def findAllAux (s : List Char) (r : RE) : Nat → Nat → List (Nat × Nat × Caps)
  | 0, _ => []
  | fuel + 1, i =>
    match searchAux s r (s.length + 1) i with
    | some (st, en, cps) =>
      (st, en, cps) :: findAllAux s r fuel (if st < en then en else en + 1)
    | none => []

def findAllRe (s : String) (r : RE) : List (Nat × Nat × Caps) :=
  findAllAux s.data r (s.data.length + 2) 0

def splitSpans (s : List Char) : Nat → List (Nat × Nat × Caps) → List (List Char)
  | i, [] => [s.drop i]
  | i, (st, en, _) :: ms => (s.drop i).take (st - i) :: splitSpans s en ms

/-- `re.split(pattern, s)` for group-free patterns. -/
def reSplit (r : RE) (s : String) : List String :=
  (splitSpans s.data 0 (findAllRe s r)).map fun l => ⟨l⟩

/-! ### Pattern combinators -/

def lit (str : String) : RE :=
  str.data.foldr (fun c acc => RE.seq (.cls fun x => x == c) acc) .eps

/-- Case-insensitive literal (for patterns compiled with `re.IGNORECASE`). -/
def litCI (str : String) : RE :=
  str.data.foldr (fun c acc => RE.seq (.cls fun x => x.toLower == c.toLower) acc) .eps

def reOpt (r : RE) : RE := .alt r .eps

def rePlus (r : RE) : RE := .seq r (.star r)

def lazyPlus (r : RE) : RE := .seq r (.lstar r)

def repExact (r : RE) : Nat → RE
  | 0 => .eps
  | n + 1 => .seq r (repExact r n)

def repOptChain (r : RE) : Nat → RE
  | 0 => .eps
  | n + 1 => .alt (.seq r (repOptChain r n)) .eps

/-- Greedy `r{lo,hi}`. -/
def repRange (r : RE) (lo hi : Nat) : RE :=
  .seq (repExact r lo) (repOptChain r (hi - lo))

/-- Greedy `r{lo,}`. -/
def repAtLeast (r : RE) (lo : Nat) : RE := .seq (repExact r lo) (.star r)

def reDigit : RE := .cls Char.isDigit

def reAlpha : RE := .cls isAlphaAscii

/-- `.` (no DOTALL: anything but a newline). -/
def reDot : RE := .cls fun c => c != '\n'

def reWs : RE := .cls isPySpace

def oneOf (cs : List Char) : RE := .cls fun c => cs.contains c

def oneOfCI (cs : List Char) : RE := .cls fun c => cs.contains c.toLower

/-! ## Education extractor (`extract_education`) -/

/-- `r'(\d{4})(?:\s*[-–]\s*(\d{4}))?'`. -/
def dashChar : RE := oneOf ['-', '–']

def yearRE : RE :=
  .seq (.grp 1 (repExact reDigit 4))
    (reOpt (.seq (.star reWs) (.seq dashChar (.seq (.star reWs)
      (.grp 2 (repExact reDigit 4))))))

/-- The `years` value `extract_education` derives from a line:
`"y1-y2"` when the optional range part matched, else the single year,
else `""`. -/
def yearsOf (line : String) : String :=
  match reSearch line yearRE with
  | some (_, _, cps) =>
    match capGroup line.data cps 1, capGroup line.data cps 2 with
    | some y1, some y2 => y1 ++ "-" ++ y2
    | some y1, none => y1
    | _, _ => ""
  | none => ""

/-- `r'gpa:?\s*(\d+\.?\d*)'` with `re.IGNORECASE`. -/
def gpaRE : RE :=
  .seq (litCI "gpa") (.seq (reOpt (.cls fun c => c == ':'))
    (.seq (.star reWs)
      (.grp 1 (.seq (rePlus reDigit)
        (.seq (reOpt (.cls fun c => c == '.')) (.star reDigit))))))

def gpaOf (line : String) : Option String :=
  match reSearch line gpaRE with
  | some (_, _, cps) => capGroup line.data cps 1
  | none => none

def degree_keywords : List String :=
  ["bachelor", "master", "phd", "doctorate", "associate", "diploma",
   "certificate", "bs", "ba", "ms", "ma", "mba", "phd", "md", "jd",
   "bsc", "msc", "beng", "meng", "btech", "mtech"]

def institution_keywords : List String :=
  ["university", "college", "institute", "school", "academy",
   "polytechnic", "conservatory"]

structure EduEntry where
  institution : String
  degree : String
  field : String
  years : String
  gpa : String
deriving Repr, DecidableEq

structure EduState where
  out : List EduEntry
  cur : Option EduEntry
deriving Repr, DecidableEq

/-- One iteration of the `for line in edu_lines` loop of
`extract_education` (`cur = none` models the falsy empty dict `{}`). -/
def eduStep (st : EduState) (rawLine : String) : EduState :=
  let line := clean_text rawLine
  if line == "" || line.length < 5 then st
  else
    let lineLower := lowerStr line
    let hasInst := institution_keywords.any fun k => occursIn k lineLower
    let hasDeg := degree_keywords.any fun k => occursIn k lineLower
    let years := yearsOf line
    let st1 : EduState :=
      if hasInst then
        ⟨st.out ++ (match st.cur with
          | some e => if e.institution != "" then [e] else []
          | none => []),
         some ⟨line, "", "", years, ""⟩⟩
      else if hasDeg then
        match st.cur with
        | some e =>
          ⟨st.out, some ⟨e.institution, line, e.field,
            if years != "" && e.years == "" then years else e.years, e.gpa⟩⟩
        | none => ⟨st.out, some ⟨"", line, "", years, ""⟩⟩
      else st
    match gpaOf line, st1.cur with
    | some g, some e => ⟨st1.out, some ⟨e.institution, e.degree, e.field, e.years, g⟩⟩
    | _, _ => st1

/-- The optional boundary indices of all kinds other than `k` (the
present keys of the Python dict, skipping `k`). -/
def boundsOthers (si : SectionIndices) (k : SectionKind) : List Nat :=
  ([(SectionKind.experience, si.experience), (SectionKind.education, si.education),
    (SectionKind.skills, si.skills), (SectionKind.certifications, si.certifications),
    (SectionKind.projects, si.projects), (SectionKind.summary, si.summary)].filterMap
    fun p => if p.1 != k then p.2 else none)

/-- `end = min(end, idx)` over every other section's index `> start`
(starting from `total = len(lines)`). -/
def sectionEnd (si : SectionIndices) (k : SectionKind) (start total : Nat) : Nat :=
  (boundsOthers si k).foldl (fun e idx => if start < idx then min e idx else e) total

/-- `UniversalResumeParser.extract_education`. -/
def extract_education (lines : List String) (si : SectionIndices) : List EduEntry :=
  match si.education with
  | none => []
  | some idx =>
    let eduStart := idx + 1
    let eduEnd := sectionEnd si .education eduStart lines.length
    let eduLines := (lines.drop eduStart).take (eduEnd - eduStart)
    let final := eduLines.foldl eduStep ⟨[], none⟩
    final.out ++ (match final.cur with
      | some e => if e.institution != "" || e.degree != "" then [e] else []
      | none => [])

/-! ## Tenure aggregator (`calculate_total_experience`) -/

structure JobEntry where
  company : String
  title : String
  location : String
  duration : String
  responsibilities : List String
deriving Repr, DecidableEq

/-- A year-month instant; `datetime.now()` is passed in as such a value. -/
structure MonthDate where
  year : Nat
  month : Nat
deriving Repr, DecidableEq

/-- `r'([A-Za-z]{3,9} \d{4})\s*[-–]\s*([A-Za-z]{3,9} \d{4}|Present)'`. -/
def monthYearRE : RE :=
  .seq (repRange reAlpha 3 9) (.seq (.cls fun c => c == ' ') (repExact reDigit 4))

def durP1 : RE :=
  .seq (.grp 1 monthYearRE)
    (.seq (.star reWs) (.seq dashChar (.seq (.star reWs)
      (.grp 2 (.alt monthYearRE (lit "Present"))))))

/-- `r'(\d{4})\s*[-–]\s*(\d{4}|Present)'`. -/
def durP2 : RE :=
  .seq (.grp 1 (repExact reDigit 4))
    (.seq (.star reWs) (.seq dashChar (.seq (.star reWs)
      (.grp 2 (.alt (repExact reDigit 4) (lit "Present"))))))

/-- `r'(\d{2}/\d{4})\s*[-–]\s*(\d{2}/\d{4}|Present)'`. -/
def slashDateRE : RE :=
  .seq (repExact reDigit 2) (.seq (.cls fun c => c == '/') (repExact reDigit 4))

def durP3 : RE :=
  .seq (.grp 1 slashDateRE)
    (.seq (.star reWs) (.seq dashChar (.seq (.star reWs)
      (.grp 2 (.alt slashDateRE (lit "Present"))))))

def natOfDigits (l : List Char) : Nat := l.foldl (fun n c => n * 10 + (c.toNat - 48)) 0

/-- Modelled from `dateutil.parser`: the month names/abbreviations it
recognises, case-insensitively.  Any other alphabetic token makes
`date_parser.parse` raise, which the enclosing `try/except` converts to
a zero-month contribution. -/
def monthTable : List (String × Nat) :=
  [("jan", 1), ("january", 1), ("feb", 2), ("february", 2), ("mar", 3), ("march", 3),
   ("apr", 4), ("april", 4), ("may", 5), ("jun", 6), ("june", 6), ("jul", 7),
   ("july", 7), ("aug", 8), ("august", 8), ("sep", 9), ("sept", 9),
   ("september", 9), ("oct", 10), ("october", 10), ("nov", 11), ("november", 11),
   ("dec", 12), ("december", 12)]

def monthNumber (tok : String) : Option Nat :=
  (monthTable.find? fun p => p.1 == lowerStr tok).map Prod.snd

/-- `date_parser.parse` on a `"<Month> <yyyy>"` token (day defaults away;
only year and month matter for the month difference). -/
def parseMonthYearTok (s : String) : Option MonthDate :=
  let name : List Char := s.data.takeWhile fun c => c != ' '
  let rest : List Char := (s.data.dropWhile fun c => c != ' ').drop 1
  match monthNumber ⟨name⟩ with
  | some m => some ⟨natOfDigits rest, m⟩
  | none => none

/-- `date_parser.parse` on a bare `"yyyy"` token: the month comes from the
default `parse("Jan 1")`, i.e. January. -/
def parseYearTok (s : String) : Option MonthDate :=
  some ⟨natOfDigits s.data, 1⟩

/-- `date_parser.parse` on an `"mm/yyyy"` token (months outside 1..12 are
modelled as parse failures). -/
def parseSlashTok (s : String) : Option MonthDate :=
  let mm := natOfDigits (s.data.take 2)
  let yy := natOfDigits (s.data.drop 3)
  if 1 ≤ mm && mm ≤ 12 then some ⟨yy, mm⟩ else none

def monthsBetween (sd ed : MonthDate) : Int :=
  ((ed.year : Int) - sd.year) * 12 + ((ed.month : Int) - sd.month)

/-- The body of the `try` block: parse the start, resolve `"Present"` to
`now` or parse the end, and clamp the month difference at 0; a parse
failure yields 0 via the `except` handler. -/
def rangeMonths (parseTok : String → Option MonthDate) (startS endS : String)
    (now : MonthDate) : Int :=
  match parseTok startS with
  | none => 0
  | some sd =>
    let edOpt := if lowerStr ⟨pyStrip endS.data⟩ == "present" then some now
      else parseTok endS
    match edOpt with
    | none => 0
    | some ed => max (monthsBetween sd ed) 0

def searchGroups (dur : String) (r : RE) : Option (String × String) :=
  match reSearch dur r with
  | some (_, _, cps) =>
    match capGroup dur.data cps 1, capGroup dur.data cps 2 with
    | some a, some b => some (a, b)
    | _, _ => none
  | none => none

/-- `extract_dates` inside `calculate_total_experience`: the three date
patterns are tried in order and the first with a match anywhere decides;
no match at all yields 0. -/
def extract_dates (dur : String) (now : MonthDate) : Int :=
  match searchGroups dur durP1 with
  | some (a, b) => rangeMonths parseMonthYearTok a b now
  | none =>
    match searchGroups dur durP2 with
    | some (a, b) => rangeMonths parseYearTok a b now
    | none =>
      match searchGroups dur durP3 with
      | some (a, b) => rangeMonths parseSlashTok a b now
      | none => 0

/-- `UniversalResumeParser.calculate_total_experience`. -/
def calculate_total_experience (exps : List JobEntry) (now : MonthDate) : String :=
  let total : Int :=
    (exps.map fun e => if e.duration != "" then extract_dates e.duration now else 0).sum
  let years := total / 12
  let months := total % 12
  if years != 0 || months != 0 then
    toString years ++ " years, " ++ toString months ++ " months"
  else "0 years, 0 months"

/-- Whether any of the three date-range patterns matches a duration. -/
def hasDateMatch (dur : String) : Bool :=
  (reSearch dur durP1).isSome || (reSearch dur durP2).isSome ||
    (reSearch dur durP3).isSome

/-- **C8 (counterexample).** In the education section below, the line
"Bachelor of Science" opens an entry with only `degree` populated; when
"Harvard University" then opens a new entry, the degree-only entry is
*discarded* (the code appends the open entry only when
`current_edu.get('institution')` is truthy), so only one entry survives —
the claim expects the degree-only entry to be closed and appended. -/
theorem education_degree_entry_dropped :
    extract_education ["Education", "Bachelor of Science", "Harvard University"]
      (find_section_boundaries
        ["Education", "Bachelor of Science", "Harvard University"]) =
      [⟨"Harvard University", "", "", "", ""⟩] := by
  decide

/-- **C8 (amended).** Whenever a line containing an institution keyword
opens a new Education Entry while another entry is currently open, the
open entry is closed and appended **exactly when its institution field is
non-empty**; an entry opened by a degree-keyword line (whose institution
is still empty) is discarded instead. -/
theorem edu_institution_closes_open_entry (st : EduState) (rawLine : String)
    (e : EduEntry)
    (hguard : (clean_text rawLine == "" || (clean_text rawLine).length < 5) = false)
    (hinst : (institution_keywords.any fun k =>
        occursIn k (lowerStr (clean_text rawLine))) = true)
    (hcur : st.cur = some e) :
    (eduStep st rawLine).out =
      st.out ++ (if e.institution != "" then [e] else []) := by
  unfold eduStep
  rw [if_neg (by simp [hguard])]
  simp only [hinst, if_pos, hcur]
  cases gpaOf (clean_text rawLine) <;> rfl

theorem edu_institution_closes_open_entry_witness :
    ((clean_text "Stanford University" == "" ||
        (clean_text "Stanford University").length < 5) = false ∧
      (institution_keywords.any fun k =>
        occursIn k (lowerStr (clean_text "Stanford University"))) = true) ∧
    (eduStep ⟨[], some ⟨"MIT College", "BS Math", "", "", ""⟩⟩
        "Stanford University").out =
      [] ++ (if ("MIT College" : String) != "" then
        [⟨"MIT College", "BS Math", "", "", ""⟩] else []) :=
  ⟨⟨by decide, by decide⟩,
    edu_institution_closes_open_entry ⟨[], some ⟨"MIT College", "BS Math", "", "", ""⟩⟩
      "Stanford University" ⟨"MIT College", "BS Math", "", "", ""⟩
      (by decide) (by decide) rfl⟩

/-! ### C9: the tenure aggregator -/

theorem rangeMonths_nonneg (pt : String → Option MonthDate) (a b : String)
    (now : MonthDate) : 0 ≤ rangeMonths pt a b now := by
  unfold rangeMonths
  cases pt a with
  | none => exact le_refl 0
  | some sd =>
    simp only
    cases (if lowerStr ⟨pyStrip b.data⟩ == "present" then some now else pt b) with
    | none => exact le_refl 0
    | some ed => exact le_max_right _ _

theorem extract_dates_nonneg (dur : String) (now : MonthDate) :
    0 ≤ extract_dates dur now := by
  unfold extract_dates
  cases searchGroups dur durP1 with
  | some p => exact rangeMonths_nonneg _ _ _ _
  | none =>
    cases searchGroups dur durP2 with
    | some p => exact rangeMonths_nonneg _ _ _ _
    | none =>
      cases searchGroups dur durP3 with
      | some p => exact rangeMonths_nonneg _ _ _ _
      | none => exact le_refl 0

theorem extract_dates_eq_zero {dur : String} (now : MonthDate)
    (h : hasDateMatch dur = false) : extract_dates dur now = 0 := by
  unfold hasDateMatch at h
  have h1 : reSearch dur durP1 = none := by
    cases hh : reSearch dur durP1 with
    | none => rfl
    | some v => rw [hh] at h; simp at h
  have h2 : reSearch dur durP2 = none := by
    cases hh : reSearch dur durP2 with
    | none => rfl
    | some v => rw [hh] at h; simp at h
  have h3 : reSearch dur durP3 = none := by
    cases hh : reSearch dur durP3 with
    | none => rfl
    | some v => rw [hh] at h; simp at h
  unfold extract_dates searchGroups
  rw [h1, h2, h3]

theorem toString_int_toNat {i : Int} (h : 0 ≤ i) : toString i = toString i.toNat := by
  conv_lhs => rw [← Int.toNat_of_nonneg h]
  rfl

/-- **C9.** For every job-entry list and every current date, the tenure
aggregator (i) produces a string of the exact form `"N years, M months"`
with natural (hence ≥ 0) `N`, `M`; (ii) clamps each entry's contribution
at ≥ 0; (iii) is unchanged when the entries whose duration matches none
of the three date-range patterns are removed (they contribute zero
without affecting the others); and (iv) yields `"0 years, 0 months"` on
the empty list. -/
theorem calculate_total_experience_spec (exps : List JobEntry) (now : MonthDate) :
    (∃ N M : Nat, calculate_total_experience exps now =
      toString N ++ " years, " ++ toString M ++ " months") ∧
    (∀ e : JobEntry, 0 ≤ (if e.duration != "" then extract_dates e.duration now else 0)) ∧
    calculate_total_experience (exps.filter fun e => hasDateMatch e.duration) now =
      calculate_total_experience exps now ∧
    calculate_total_experience [] now = "0 years, 0 months" := by
  have hnn : ∀ e : JobEntry,
      0 ≤ (if e.duration != "" then extract_dates e.duration now else 0) := by
    intro e
    split
    · exact extract_dates_nonneg _ _
    · exact le_refl 0
  refine ⟨?_, hnn, ?_, rfl⟩
  · have htn : 0 ≤ (exps.map fun e =>
        if e.duration != "" then extract_dates e.duration now else 0).sum := by
      refine List.sum_nonneg ?_
      intro x hx
      rcases List.mem_map.mp hx with ⟨e, _, rfl⟩
      exact hnn e
    unfold calculate_total_experience
    set total : Int := (exps.map fun e =>
      if e.duration != "" then extract_dates e.duration now else 0).sum with htot
    by_cases hc : (total / 12 != 0 || total % 12 != 0) = true
    · refine ⟨(total / 12).toNat, (total % 12).toNat, ?_⟩
      rw [if_pos hc, toString_int_toNat (Int.ediv_nonneg htn (by norm_num)),
        toString_int_toNat (Int.emod_nonneg total (by norm_num))]
    · refine ⟨0, 0, ?_⟩
      rw [if_neg (by simp at hc ⊢; omega)]
      decide
  · have hmap : ((exps.filter fun e => hasDateMatch e.duration).map fun e =>
        if e.duration != "" then extract_dates e.duration now else 0).sum =
        (exps.map fun e =>
          if e.duration != "" then extract_dates e.duration now else 0).sum := by
      induction exps with
      | nil => rfl
      | cons e rest ih =>
        by_cases he : hasDateMatch e.duration = true
        · simp only [List.filter_cons, he, if_pos, List.map_cons, List.sum_cons, ih]
        · have h0 : extract_dates e.duration now = 0 :=
            extract_dates_eq_zero now (by simpa using he)
          simp only [List.filter_cons, he, Bool.false_eq_true, if_neg,
            not_false_iff, List.map_cons, List.sum_cons, ih, h0, ite_self]
          omega
    unfold calculate_total_experience
    rw [hmap]

/-! ## Weighted matching engine (`match_resumes`, app.py)

A tier is the Python dict mapping category names to keyword lists; a
`JDKeywords` value is the request's `keywords` object with its
`required_keywords` and `preferred_keywords` entries.  Python floats are
modelled as exact rationals.  The final sorting and top-k truncation of
the route only permutes/drops result entries and never alters a score or
report, and is not modelled. -/

abbrev Tier := List (String × List String)

def dictGet {α : Type} (d : List (String × α)) (k : String) : Option α :=
  (d.find? fun p => p.1 == k).map Prod.snd

structure JDKeywords where
  required : Tier
  preferred : Tier

def SCORING_CATEGORIES : List String :=
  ["hard_skills", "tools_and_platforms", "methodologies_and_frameworks"]

structure CatCounts where
  hard_skills : Nat
  tools_and_platforms : Nat
  methodologies_and_frameworks : Nat
deriving Repr, DecidableEq

def countOf (mc : CatCounts) (cat : String) : Nat :=
  if cat == "hard_skills" then mc.hard_skills
  else if cat == "tools_and_platforms" then mc.tools_and_platforms
  else if cat == "methodologies_and_frameworks" then mc.methodologies_and_frameworks
  else 0

/-- Step 1 for one tier:
`len(jd_keywords_categorized.get(f'{importance}_keywords', {}).get(category, ))`
for each scoring category.  The inner `.get(category, )` defaults to
`None`, and `len(None)` raises the `TypeError` that the route's `except`
converts into a 500 error — modelled by `none`. -/
def tierCounts (t : Tier) : Option CatCounts :=
  match dictGet t "hard_skills", dictGet t "tools_and_platforms",
      dictGet t "methodologies_and_frameworks" with
  | some h, some tp, some m => some ⟨h.length, tp.length, m.length⟩
  | _, _, _ => none

/-- `any(max_counts[importance].values())`. -/
def hasAnyCount (mc : CatCounts) : Bool :=
  (mc.hard_skills != 0) || (mc.tools_and_platforms != 0) ||
    (mc.methodologies_and_frameworks != 0)

def SCORE_COMPOSITION_WEIGHTS : ℚ × ℚ := (8/10, 2/10)

def REQUIRED_CATEGORY_WEIGHTS : List (String × ℚ) :=
  [("hard_skills", 2/10), ("tools_and_platforms", 6/10),
   ("methodologies_and_frameworks", 2/10)]

def PREFERRED_CATEGORY_WEIGHTS : List (String × ℚ) :=
  [("hard_skills", 1/10), ("tools_and_platforms", 8/10),
   ("methodologies_and_frameworks", 1/10)]

/-- Step 2 composition reweighting. -/
def compWeights (hasR hasP : Bool) : ℚ × ℚ :=
  if hasR && !hasP then (1, 0)
  else if !hasR && hasP then (0, 1)
  else SCORE_COMPOSITION_WEIGHTS

/-- Step 3: keep the categories with keywords and renormalize their
weights to sum to 1 (the division happens only when the present weight
sum is positive, as in the source). -/
def renormalize (base : List (String × ℚ)) (mc : CatCounts) : List (String × ℚ) :=
  let present := base.filter fun p => 0 < countOf mc p.1
  let s : ℚ := (present.map Prod.snd).sum
  if 0 < s then present.map (fun p => (p.1, p.2 / s)) else present

/-- `set(k.lower() for k in resume_keywords)`: membership is what
matters, so the lowered list plays the set. -/
def resumeKeySet (kws : List String) : List String := kws.map lowerStr

/-- `current_matches[importance][category]` for one category: how many of
the tier's keywords in that category occur (lowercased) in the resume's
keyword set. -/
def kwMatchCount (jdKws : List String) (rset : List String) : Nat :=
  (jdKws.filter fun kw => rset.contains (lowerStr kw)).length

/-- Step 4, one tier's score component: sum over the renormalized
categories of `match_fraction * weight` (fraction 0 when `max_count` is
0). -/
def tierComponent (fw : List (String × ℚ)) (t : Tier) (mc : CatCounts)
    (rset : List String) : ℚ :=
  (fw.map fun p =>
    let m := kwMatchCount ((dictGet t p.1).getD []) rset
    let mx := countOf mc p.1
    (if 0 < mx then (m : ℚ) / mx else 0) * p.2).sum

/-- `report_details`: per category `(matched, missing)` lists, split into
the scoring and additional groups. -/
structure ReportDetails where
  scoring_keywords : List (String × (List String × List String))
  additional_keywords : List (String × (List String × List String))
deriving Repr, DecidableEq

/-- Python dict update: overwrite in place if the key exists, else append. -/
def dictInsert {α : Type} (d : List (String × α)) (k : String) (v : α) :
    List (String × α) :=
  if (d.find? fun p => p.1 == k).isSome then
    d.map fun p => if p.1 == k then (k, v) else p
  else d ++ [(k, v)]

/-- The inner `for kw in keywords` loop: append each keyword to `matched`
or `missing` of the record. -/
def procKeywords (rec : List String × List String) (rset : List String)
    (kws : List String) : List String × List String :=
  kws.foldl (fun r kw =>
    if rset.contains (lowerStr kw) then (r.1 ++ [kw], r.2) else (r.1, r.2 ++ [kw]))
    rec

/-- Processing one `(category, keywords)` item of a tier into the report. -/
def reportCatStep (rset : List String) (rd : ReportDetails)
    (entry : String × List String) : ReportDetails :=
  let cat := entry.1
  if SCORING_CATEGORIES.contains cat then
    let rec0 := (dictGet rd.scoring_keywords cat).getD ([], [])
    ⟨dictInsert rd.scoring_keywords cat (procKeywords rec0 rset entry.2),
      rd.additional_keywords⟩
  else
    let rec0 := (dictGet rd.additional_keywords cat).getD ([], [])
    ⟨rd.scoring_keywords,
      dictInsert rd.additional_keywords cat (procKeywords rec0 rset entry.2)⟩

/-- The report loop over `jd_keywords_categorized.items()` (required
entries first, then preferred, in dict insertion order); both tiers feed
one shared `report_details` object. -/
def buildReport (jd : JDKeywords) (rset : List String) : ReportDetails :=
  (jd.required ++ jd.preferred).foldl (reportCatStep rset) ⟨[], []⟩

inductive MatchOutcome where
  /-- The 500 path: a `TypeError` from `len(None)` in step 1. -/
  | typeError : MatchOutcome
  /-- `{'results': [], 'message': ...}`: nothing is scored. -/
  | noScorable : String → MatchOutcome
  /-- One `(score, report)` per scored resume, in input order. -/
  | scored : List (ℚ × ReportDetails) → MatchOutcome
deriving DecidableEq

/-- The `/match` route's scoring pipeline (`match_resumes` in app.py):
steps 1-5 for a request whose `keywords` object holds the two tiers, run
against the resumes' combined-keyword lists. -/
def match_resumes (jd : JDKeywords) (resumes : List (List String)) : MatchOutcome :=
  match tierCounts jd.required, tierCounts jd.preferred with
  | some mcR, some mcP =>
    let hasR := hasAnyCount mcR
    let hasP := hasAnyCount mcP
    if !hasR && !hasP then
      .noScorable "No scorable keywords found in the job description."
    else
      let w := compWeights hasR hasP
      let fwR := renormalize REQUIRED_CATEGORY_WEIGHTS mcR
      let fwP := renormalize PREFERRED_CATEGORY_WEIGHTS mcP
      .scored (resumes.map fun rkws =>
        let rset := resumeKeySet rkws
        let reqC : ℚ := if hasR then tierComponent fwR jd.required mcR rset else 0
        let prefC : ℚ := if hasP then tierComponent fwP jd.preferred mcP rset else 0
        (reqC * w.1 + prefC * w.2, buildReport jd rset))
  | _, _ => .typeError

/-! ### C1: the Python/SQL half-credit scenario -/

/-- The C1 Job Keyword Requirement: only `required.hard_skills =
["Python","SQL"]` is populated; every other tier/category list is empty. -/
def jdC1 : JDKeywords :=
  ⟨[("hard_skills", ["Python", "SQL"]), ("tools_and_platforms", []),
    ("methodologies_and_frameworks", [])],
   [("hard_skills", []), ("tools_and_platforms", []),
    ("methodologies_and_frameworks", [])]⟩

/-- **C1.** A resume whose combined keywords contain "Python"
case-insensitively but not "SQL", matched against `jdC1`: the hard-skills
match count is 1 of 2 (fraction 0.5), the required tier's hard-skills
weight renormalizes to 1, the preferred composition weight collapses to
0, and the final score is exactly 1/2. -/
theorem match_python_sql_half (r : List String)
    (hpy : (resumeKeySet r).contains "python" = true)
    (hsql : (resumeKeySet r).contains "sql" = false) :
    kwMatchCount ["Python", "SQL"] (resumeKeySet r) = 1 ∧
    tierCounts jdC1.required = some ⟨2, 0, 0⟩ ∧
    tierCounts jdC1.preferred = some ⟨0, 0, 0⟩ ∧
    renormalize REQUIRED_CATEGORY_WEIGHTS ⟨2, 0, 0⟩ = [("hard_skills", 1)] ∧
    (compWeights (hasAnyCount ⟨2, 0, 0⟩) (hasAnyCount ⟨0, 0, 0⟩)).2 = 0 ∧
    match_resumes jdC1 [r] =
      .scored [((1 : ℚ)/2, buildReport jdC1 (resumeKeySet r))] := by
  have hlp : lowerStr "Python" = "python" := rfl
  have hls : lowerStr "SQL" = "sql" := rfl
  have hcount : kwMatchCount ["Python", "SQL"] (resumeKeySet r) = 1 := by
    unfold kwMatchCount
    rw [List.filter_cons, List.filter_cons, List.filter_nil, hlp, hls, hpy, hsql]
    rfl
  have hne1 : ¬("tools_and_platforms" = "hard_skills") := by decide
  have hne2 : ¬("methodologies_and_frameworks" = "hard_skills") := by decide
  have hren : renormalize REQUIRED_CATEGORY_WEIGHTS ⟨2, 0, 0⟩ = [("hard_skills", 1)] := by
    norm_num [renormalize, REQUIRED_CATEGORY_WEIGHTS, countOf,
      List.filter_cons, List.filter_nil, hne1, hne2]
  refine ⟨hcount, rfl, rfl, hren, rfl, ?_⟩
  have hstep : match_resumes jdC1 [r] = .scored
      [(tierComponent (renormalize REQUIRED_CATEGORY_WEIGHTS ⟨2, 0, 0⟩) jdC1.required
          ⟨2, 0, 0⟩ (resumeKeySet r) * 1 + 0 * 0,
        buildReport jdC1 (resumeKeySet r))] := rfl
  rw [hstep, hren]
  unfold tierComponent
  rw [List.map_cons, List.map_nil]
  norm_num [countOf, dictGet, jdC1, hcount]

theorem match_python_sql_half_witness :
    ((resumeKeySet ["Python", "Java"]).contains "python" = true ∧
      (resumeKeySet ["Python", "Java"]).contains "sql" = false) ∧
    match_resumes jdC1 [["Python", "Java"]] =
      .scored [((1 : ℚ)/2, buildReport jdC1 (resumeKeySet ["Python", "Java"]))] :=
  ⟨⟨by decide, by decide⟩,
    (match_python_sql_half ["Python", "Java"] (by decide) (by decide)).2.2.2.2.2⟩

/-! ### C2: the no-scorable-keywords short-circuit -/

/-- **C2 (counterexample).** A Job Keyword Requirement whose two tiers
contain no keyword in any scoring category — here, two empty tier
mappings — does not reach the defined empty-result case: step 1's
`.get(category, )` yields `None`, `len(None)` raises `TypeError`, and
the route answers with a 500 error while the claim promises an empty
result set with an explanatory message. -/
theorem match_resumes_missing_categories_error :
    match_resumes ⟨[], []⟩ [["python"]] = MatchOutcome.typeError := rfl

/-- **C2 (amended).** For every Job Keyword Requirement in which both
tiers have the three scoring-category keys *present* but none of those
lists contains a keyword, the engine short-circuits: it returns the
empty-result outcome with its explanatory message, and no resume is
scored (the outcome carries no per-resume entry). -/
theorem match_resumes_noScorable (jd : JDKeywords) (resumes : List (List String))
    (mcR mcP : CatCounts)
    (hR : tierCounts jd.required = some mcR)
    (hP : tierCounts jd.preferred = some mcP)
    (hnR : hasAnyCount mcR = false)
    (hnP : hasAnyCount mcP = false) :
    match_resumes jd resumes =
      MatchOutcome.noScorable "No scorable keywords found in the job description." := by
  unfold match_resumes
  rw [hR, hP]
  simp [hnR, hnP]

def tierT0 : Tier :=
  [("hard_skills", []), ("tools_and_platforms", []),
   ("methodologies_and_frameworks", [])]

theorem match_resumes_noScorable_witness :
    (tierCounts tierT0 = some ⟨0, 0, 0⟩ ∧ hasAnyCount ⟨0, 0, 0⟩ = false) ∧
    match_resumes ⟨tierT0, tierT0⟩ [["python"]] =
      MatchOutcome.noScorable "No scorable keywords found in the job description." :=
  ⟨⟨by decide, by decide⟩,
    match_resumes_noScorable ⟨tierT0, tierT0⟩ [["python"]] ⟨0, 0, 0⟩ ⟨0, 0, 0⟩
      (by decide) (by decide) (by decide) (by decide)⟩

/-! ### C3: scores stay in [0,1] -/

theorem tierCounts_destruct {t : Tier} {mc : CatCounts} (h : tierCounts t = some mc) :
    ∃ lh lt lm, dictGet t "hard_skills" = some lh ∧
      dictGet t "tools_and_platforms" = some lt ∧
      dictGet t "methodologies_and_frameworks" = some lm ∧
      mc = ⟨lh.length, lt.length, lm.length⟩ := by
  unfold tierCounts at h
  cases h1 : dictGet t "hard_skills" <;> rw [h1] at h
  · cases h
  cases h2 : dictGet t "tools_and_platforms" <;> rw [h2] at h
  · cases h
  cases h3 : dictGet t "methodologies_and_frameworks" <;> rw [h3] at h
  · cases h
  injection h with h
  exact ⟨_, _, _, rfl, rfl, rfl, h.symm⟩

theorem renormalize_mem {base : List (String × ℚ)} {mc : CatCounts} {p : String × ℚ}
    (hp : p ∈ renormalize base mc) :
    ∃ q ∈ base, p.1 = q.1 ∧ 0 < countOf mc q.1 ∧
      (p.2 = q.2 / ((base.filter fun x => 0 < countOf mc x.1).map Prod.snd).sum ∨
        p.2 = q.2) := by
  unfold renormalize at hp
  by_cases hs : 0 < ((base.filter fun x => 0 < countOf mc x.1).map Prod.snd).sum
  · rw [if_pos hs] at hp
    rcases List.mem_map.mp hp with ⟨q, hq, rfl⟩
    have hq' := List.mem_filter.mp hq
    exact ⟨q, hq'.1, rfl, by simpa using hq'.2, Or.inl rfl⟩
  · rw [if_neg hs] at hp
    have hp' := List.mem_filter.mp hp
    exact ⟨p, hp'.1, rfl, by simpa using hp'.2, Or.inr rfl⟩

theorem renormalize_nonneg {base : List (String × ℚ)} {mc : CatCounts}
    (hb : ∀ q ∈ base, 0 ≤ q.2) {p : String × ℚ} (hp : p ∈ renormalize base mc) :
    0 ≤ p.2 := by
  rcases renormalize_mem hp with ⟨q, hq, _, _, hcase⟩
  have hq2 := hb q hq
  rcases hcase with h | h
  · rw [h]
    refine div_nonneg hq2 (List.sum_nonneg ?_)
    intro x hx
    rcases List.mem_map.mp hx with ⟨y, hy, rfl⟩
    exact hb y (List.mem_filter.mp hy).1
  · rw [h]; exact hq2

theorem renormalize_sum_one {base : List (String × ℚ)} {mc : CatCounts}
    (hb : ∀ q ∈ base, 0 < q.2)
    (hne : (base.filter fun x => 0 < countOf mc x.1) ≠ []) :
    ((renormalize base mc).map Prod.snd).sum = 1 := by
  unfold renormalize
  have hsub : ∀ q ∈ base.filter fun x => 0 < countOf mc x.1, 0 < q.2 :=
    fun q hq => hb q (List.mem_filter.mp hq).1
  have hsumpos :
      0 < (((base.filter fun x => 0 < countOf mc x.1).map Prod.snd)).sum := by
    cases hp : base.filter fun x => 0 < countOf mc x.1 with
    | nil => exact absurd hp hne
    | cons a ta =>
      rw [List.map_cons, List.sum_cons]
      have ha : 0 < a.2 := hsub a (by rw [hp]; exact List.mem_cons_self _ _)
      have ht : 0 ≤ (ta.map Prod.snd).sum := by
        refine List.sum_nonneg ?_
        intro x hx
        rcases List.mem_map.mp hx with ⟨y, hy, rfl⟩
        exact le_of_lt (hsub y (by rw [hp]; exact List.mem_cons_of_mem _ hy))
      linarith
  rw [if_pos hsumpos, List.map_map]
  have hcomp : (Prod.snd ∘ fun p : String × ℚ =>
      (p.1, p.2 / (((base.filter fun x => 0 < countOf mc x.1).map Prod.snd)).sum)) =
      fun p : String × ℚ =>
        p.2 / (((base.filter fun x => 0 < countOf mc x.1).map Prod.snd)).sum := rfl
  rw [hcomp]
  simp only [div_eq_mul_inv]
  rw [List.sum_map_mul_right]
  exact mul_inv_cancel₀ (ne_of_gt hsumpos)

theorem present_ne_nil (base : List (String × ℚ)) (mc : CatCounts)
    (h : hasAnyCount mc = true)
    (h1 : ∃ w, ("hard_skills", w) ∈ base)
    (h2 : ∃ w, ("tools_and_platforms", w) ∈ base)
    (h3 : ∃ w, ("methodologies_and_frameworks", w) ∈ base) :
    (base.filter fun x => 0 < countOf mc x.1) ≠ [] := by
  intro hnil
  rw [List.filter_eq_nil_iff] at hnil
  unfold hasAnyCount at h
  simp only [Bool.or_eq_true, bne_iff_ne, ne_eq] at h
  rcases h with (h | h) | h
  · rcases h1 with ⟨w, hw⟩
    have := hnil _ hw
    simp [countOf] at this
    omega
  · rcases h2 with ⟨w, hw⟩
    have := hnil _ hw
    simp [countOf] at this
    omega
  · rcases h3 with ⟨w, hw⟩
    have := hnil _ hw
    simp [countOf] at this
    omega

theorem tierComponent_nonneg (fw : List (String × ℚ)) (t : Tier) (mc : CatCounts)
    (rset : List String) (hw : ∀ p ∈ fw, 0 ≤ p.2) :
    0 ≤ tierComponent fw t mc rset := by
  refine List.sum_nonneg ?_
  intro x hx
  rcases List.mem_map.mp hx with ⟨p, hp, rfl⟩
  have h2 := hw p hp
  refine mul_nonneg ?_ h2
  split
  · positivity
  · exact le_refl 0

theorem kwMatchCount_le (l : List String) (rset : List String) :
    kwMatchCount l rset ≤ l.length :=
  List.length_filter_le _ _

theorem tierComponent_le_sum (t : Tier) (mc : CatCounts) (rset : List String)
    (fw : List (String × ℚ)) (hmc : tierCounts t = some mc)
    (hw : ∀ p ∈ fw, 0 ≤ p.2)
    (hcats : ∀ p ∈ fw, p.1 ∈ SCORING_CATEGORIES) :
    tierComponent fw t mc rset ≤ (fw.map Prod.snd).sum := by
  unfold tierComponent
  refine List.sum_le_sum ?_
  intro p hp
  have hw' := hw p hp
  have hpct : (if 0 < countOf mc p.1 then
      ((kwMatchCount ((dictGet t p.1).getD []) rset : ℚ)) / countOf mc p.1 else 0) ≤ 1 := by
    split
    case isTrue hpos =>
      rw [div_le_one (by exact_mod_cast hpos)]
      have hle : kwMatchCount ((dictGet t p.1).getD []) rset ≤ countOf mc p.1 := by
        rcases tierCounts_destruct hmc with ⟨lh, lt, lm, e1, e2, e3, rfl⟩
        have hcat := hcats p hp
        simp only [SCORING_CATEGORIES, List.mem_cons, List.not_mem_nil, or_false] at hcat
        rcases hcat with hc | hc | hc
        · rw [hc, e1]
          simp only [Option.getD_some, countOf]
          norm_num
          exact kwMatchCount_le lh rset
        · rw [hc, e2]
          simp only [Option.getD_some, countOf]
          norm_num
          exact kwMatchCount_le lt rset
        · rw [hc, e3]
          simp only [Option.getD_some, countOf]
          norm_num
          exact kwMatchCount_le lm rset
      exact_mod_cast hle
    case isFalse => norm_num
  calc (if 0 < countOf mc p.1 then
        ((kwMatchCount ((dictGet t p.1).getD []) rset : ℚ)) / countOf mc p.1 else 0) * p.2
      ≤ 1 * p.2 := mul_le_mul_of_nonneg_right hpct hw'
    _ = p.2 := one_mul _

theorem required_weights_pos : ∀ q ∈ REQUIRED_CATEGORY_WEIGHTS, (0:ℚ) < q.2 := by
  intro q hq
  fin_cases hq <;> norm_num

theorem preferred_weights_pos : ∀ q ∈ PREFERRED_CATEGORY_WEIGHTS, (0:ℚ) < q.2 := by
  intro q hq
  fin_cases hq <;> norm_num

theorem required_weights_cats :
    ∀ q ∈ REQUIRED_CATEGORY_WEIGHTS, q.1 ∈ SCORING_CATEGORIES := by
  intro q hq
  fin_cases hq <;> decide

theorem preferred_weights_cats :
    ∀ q ∈ PREFERRED_CATEGORY_WEIGHTS, q.1 ∈ SCORING_CATEGORIES := by
  intro q hq
  fin_cases hq <;> decide

/-- The bounds `0 ≤ component ≤ 1` for one tier whose max-counts come from
`tierCounts` and whose weights were renormalized from a positive weight
table covering the scoring categories. -/
theorem tierComponent_unit (t : Tier) (mc : CatCounts) (rset : List String)
    (base : List (String × ℚ)) (hmc : tierCounts t = some mc)
    (hbpos : ∀ q ∈ base, (0:ℚ) < q.2)
    (hbcats : ∀ q ∈ base, q.1 ∈ SCORING_CATEGORIES)
    (hany : hasAnyCount mc = true)
    (hm1 : ∃ w, ("hard_skills", w) ∈ base)
    (hm2 : ∃ w, ("tools_and_platforms", w) ∈ base)
    (hm3 : ∃ w, ("methodologies_and_frameworks", w) ∈ base) :
    0 ≤ tierComponent (renormalize base mc) t mc rset ∧
      tierComponent (renormalize base mc) t mc rset ≤ 1 := by
  have hwnn : ∀ p ∈ renormalize base mc, (0:ℚ) ≤ p.2 :=
    fun p hp => renormalize_nonneg (fun q hq => le_of_lt (hbpos q hq)) hp
  have hcats : ∀ p ∈ renormalize base mc, p.1 ∈ SCORING_CATEGORIES := by
    intro p hp
    rcases renormalize_mem hp with ⟨q, hq, he, _, _⟩
    rw [he]
    exact hbcats q hq
  have hsum : ((renormalize base mc).map Prod.snd).sum = 1 :=
    renormalize_sum_one hbpos (present_ne_nil base mc hany hm1 hm2 hm3)
  refine ⟨tierComponent_nonneg _ _ _ _ hwnn, ?_⟩
  calc tierComponent (renormalize base mc) t mc rset
      ≤ ((renormalize base mc).map Prod.snd).sum :=
        tierComponent_le_sum t mc rset _ hmc hwnn hcats
    _ = 1 := hsum

/-- **C3.** For every Job Keyword Requirement the engine accepts (both
tier's scoring-category lists are present, and at least one scoring
keyword exists) and every resume it scores, the final score lies in
[0,1]. -/
theorem match_scores_in_unit_interval (jd : JDKeywords) (resumes : List (List String))
    (results : List (ℚ × ReportDetails))
    (h : match_resumes jd resumes = MatchOutcome.scored results) :
    ∀ p ∈ results, 0 ≤ p.1 ∧ p.1 ≤ 1 := by
  have hmR : ∃ w, ("hard_skills", w) ∈ REQUIRED_CATEGORY_WEIGHTS :=
    ⟨2/10, by unfold REQUIRED_CATEGORY_WEIGHTS; exact List.mem_cons_self _ _⟩
  have hmR2 : ∃ w, ("tools_and_platforms", w) ∈ REQUIRED_CATEGORY_WEIGHTS :=
    ⟨6/10, by unfold REQUIRED_CATEGORY_WEIGHTS; simp⟩
  have hmR3 : ∃ w, ("methodologies_and_frameworks", w) ∈ REQUIRED_CATEGORY_WEIGHTS :=
    ⟨2/10, by unfold REQUIRED_CATEGORY_WEIGHTS; simp⟩
  have hmP1 : ∃ w, ("hard_skills", w) ∈ PREFERRED_CATEGORY_WEIGHTS :=
    ⟨1/10, by unfold PREFERRED_CATEGORY_WEIGHTS; exact List.mem_cons_self _ _⟩
  have hmP2 : ∃ w, ("tools_and_platforms", w) ∈ PREFERRED_CATEGORY_WEIGHTS :=
    ⟨8/10, by unfold PREFERRED_CATEGORY_WEIGHTS; simp⟩
  have hmP3 : ∃ w, ("methodologies_and_frameworks", w) ∈ PREFERRED_CATEGORY_WEIGHTS :=
    ⟨1/10, by unfold PREFERRED_CATEGORY_WEIGHTS; simp⟩
  unfold match_resumes at h
  cases hR : tierCounts jd.required with
  | none => rw [hR] at h; cases h
  | some mcR =>
  cases hP : tierCounts jd.preferred with
  | none => rw [hR, hP] at h; cases h
  | some mcP =>
  rw [hR, hP] at h
  dsimp only at h
  by_cases hb : (!hasAnyCount mcR && !hasAnyCount mcP) = true
  · rw [if_pos hb] at h; cases h
  · rw [if_neg hb] at h
    injection h with h
    subst h
    intro p hp
    rcases List.mem_map.mp hp with ⟨rkws, _, rfl⟩
    dsimp only
    cases hhr : hasAnyCount mcR with
    | false =>
      cases hhp : hasAnyCount mcP with
      | false => norm_num [compWeights, SCORE_COMPOSITION_WEIGHTS]
      | true =>
        have hu := tierComponent_unit jd.preferred mcP (resumeKeySet rkws)
          PREFERRED_CATEGORY_WEIGHTS hP preferred_weights_pos preferred_weights_cats
          hhp hmP1 hmP2 hmP3
        norm_num [compWeights]
        exact ⟨hu.1, hu.2⟩
    | true =>
      have huR := tierComponent_unit jd.required mcR (resumeKeySet rkws)
        REQUIRED_CATEGORY_WEIGHTS hR required_weights_pos required_weights_cats
        hhr hmR hmR2 hmR3
      cases hhp : hasAnyCount mcP with
      | false =>
        norm_num [compWeights]
        exact ⟨huR.1, huR.2⟩
      | true =>
        have huP := tierComponent_unit jd.preferred mcP (resumeKeySet rkws)
          PREFERRED_CATEGORY_WEIGHTS hP preferred_weights_pos preferred_weights_cats
          hhp hmP1 hmP2 hmP3
        norm_num [compWeights, SCORE_COMPOSITION_WEIGHTS]
        constructor
        · linarith [huR.1, huP.1]
        · linarith [huR.1, huR.2, huP.1, huP.2]

def c3wit : List (ℚ × ReportDetails) :=
  [(tierComponent (renormalize REQUIRED_CATEGORY_WEIGHTS ⟨2, 0, 0⟩) jdC1.required
      ⟨2, 0, 0⟩ (resumeKeySet ["Python", "Java"]) * 1 + 0 * 0,
    buildReport jdC1 (resumeKeySet ["Python", "Java"]))]

theorem match_scores_in_unit_interval_witness :
    match_resumes jdC1 [["Python", "Java"]] = MatchOutcome.scored c3wit ∧
    ∀ p ∈ c3wit, 0 ≤ p.1 ∧ p.1 ≤ 1 :=
  ⟨rfl, match_scores_in_unit_interval jdC1 [["Python", "Java"]] c3wit rfl⟩

/-! ### C10: the per-category report records -/

/-- Look a category's `(matched, missing)` record up in the group the
code files it under. -/
def reportLookup (rd : ReportDetails) (cat : String) :
    Option (List String × List String) :=
  if SCORING_CATEGORIES.contains cat then dictGet rd.scoring_keywords cat
  else dictGet rd.additional_keywords cat

theorem find?_map_replace {α : Type} (d : List (String × α)) (k k' : String) (v : α)
    (h : k' ≠ k) :
    List.find? (fun p => p.1 == k')
        (d.map fun p => if p.1 == k then (k, v) else p) =
      List.find? (fun p => p.1 == k') d := by
  induction d with
  | nil => rfl
  | cons e es ih =>
    rw [List.map_cons]
    by_cases he : (e.1 == k) = true
    · rw [if_pos he]
      have hek' : (e.1 == k') = false := by
        simp only [beq_iff_eq] at he
        rw [he]
        exact beq_eq_false_iff_ne.mpr (Ne.symm h)
      have hkv : (((k, v) : String × α).1 == k') = false :=
        beq_eq_false_iff_ne.mpr (Ne.symm h)
      simp only [List.find?_cons, hek', hkv]
      exact ih
    · rw [if_neg he]
      cases hek : (e.1 == k') with
      | true => simp only [List.find?_cons, hek]
      | false =>
        simp only [List.find?_cons, hek]
        exact ih

theorem find?_map_replace_self {α : Type} (d : List (String × α)) (k : String) (v : α)
    (hf : (List.find? (fun p => p.1 == k) d).isSome = true) :
    List.find? (fun p => p.1 == k)
        (d.map fun p => if p.1 == k then (k, v) else p) = some (k, v) := by
  induction d with
  | nil => simp at hf
  | cons e es ih =>
    rw [List.map_cons]
    by_cases he : (e.1 == k) = true
    · rw [if_pos he]
      have hkv : (((k, v) : String × α).1 == k) = true := by simp
      simp only [List.find?_cons, hkv]
    · rw [if_neg he]
      have he' : (e.1 == k) = false := by simpa using he
      simp only [List.find?_cons, he']
      refine ih ?_
      rw [List.find?_cons] at hf
      rw [he'] at hf
      exact hf

theorem dictGet_dictInsert_ne {α : Type} (d : List (String × α)) (k k' : String)
    (v : α) (h : k' ≠ k) : dictGet (dictInsert d k v) k' = dictGet d k' := by
  unfold dictInsert
  split
  · unfold dictGet
    rw [find?_map_replace d k k' v h]
  · unfold dictGet
    rw [List.find?_append]
    have h2 : List.find? (fun p => p.1 == k') [(k, v)] = none := by
      have hkv : (((k, v) : String × α).1 == k') = false := by simp [Ne.symm h]
      simp only [List.find?_cons, hkv]
      rfl
    rw [h2]
    simp

theorem dictGet_dictInsert_self {α : Type} (d : List (String × α)) (k : String)
    (v : α) : dictGet (dictInsert d k v) k = some v := by
  unfold dictInsert
  split
  case isTrue hfound =>
    unfold dictGet
    rw [find?_map_replace_self d k v hfound]
    rfl
  case isFalse hnone =>
    unfold dictGet
    rw [List.find?_append]
    have h1 : List.find? (fun p => p.1 == k) d = none := by
      cases hfd : List.find? (fun p => p.1 == k) d with
      | none => rfl
      | some e => rw [hfd] at hnone; simp at hnone
    rw [h1]
    have hkv : (((k, v) : String × α).1 == k) = true := by simp
    simp only [List.find?_cons, hkv]
    rfl

theorem reportLookup_step_ne (rset : List String) (rd : ReportDetails)
    (e : String × List String) (cat : String) (h : e.1 ≠ cat) :
    reportLookup (reportCatStep rset rd e) cat = reportLookup rd cat := by
  unfold reportCatStep reportLookup
  by_cases hsc : SCORING_CATEGORIES.contains e.1 = true
  · by_cases hc : SCORING_CATEGORIES.contains cat = true
    · simp only [hsc, hc, if_true]
      exact dictGet_dictInsert_ne _ _ _ _ (Ne.symm h)
    · have hc' : SCORING_CATEGORIES.contains cat = false := by
        simpa using hc
      simp only [hsc, hc', if_true, Bool.false_eq_true, if_false]
  · have hsc' : SCORING_CATEGORIES.contains e.1 = false := by
      simpa using hsc
    by_cases hc : SCORING_CATEGORIES.contains cat = true
    · simp only [hsc', hc, if_true, Bool.false_eq_true, if_false]
    · have hc' : SCORING_CATEGORIES.contains cat = false := by
        simpa using hc
      simp only [hsc', hc', Bool.false_eq_true, if_false]
      exact dictGet_dictInsert_ne _ _ _ _ (Ne.symm h)

theorem reportLookup_step_self (rset : List String) (rd : ReportDetails)
    (e : String × List String) :
    reportLookup (reportCatStep rset rd e) e.1 =
      some (procKeywords ((reportLookup rd e.1).getD ([], [])) rset e.2) := by
  unfold reportCatStep reportLookup
  by_cases hsc : SCORING_CATEGORIES.contains e.1 = true
  · simp only [hsc, if_true]
    exact dictGet_dictInsert_self _ _ _
  · have hsc' : SCORING_CATEGORIES.contains e.1 = false := by
      simpa using hsc
    simp only [hsc', Bool.false_eq_true, if_false]
    exact dictGet_dictInsert_self _ _ _

theorem reportLookup_fold_notin (rset : List String) (es : Tier)
    (rd : ReportDetails) (cat : String) (h : ∀ e ∈ es, e.1 ≠ cat) :
    reportLookup (es.foldl (reportCatStep rset) rd) cat = reportLookup rd cat := by
  induction es generalizing rd with
  | nil => rfl
  | cons e es ih =>
    rw [List.foldl_cons, ih _ (fun x hx => h x (List.mem_cons_of_mem _ hx))]
    exact reportLookup_step_ne rset rd e cat (h e (List.mem_cons_self _ _))

/-- Folding one tier into the report: with the tier's category keys
unique (they form a Python dict), the record at `cat` becomes the old
record extended with the partition of the tier's `cat` keyword list. -/
theorem reportLookup_fold_tier (rset : List String) (es : Tier)
    (rd : ReportDetails) (cat : String) (hnd : (es.map Prod.fst).Nodup) :
    reportLookup (es.foldl (reportCatStep rset) rd) cat =
      match dictGet es cat with
      | some kws => some (procKeywords ((reportLookup rd cat).getD ([], [])) rset kws)
      | none => reportLookup rd cat := by
  induction es generalizing rd with
  | nil => rfl
  | cons e es ih =>
    rw [List.map_cons, List.nodup_cons] at hnd
    by_cases hc : e.1 = cat
    · have hnotin : ∀ e' ∈ es, e'.1 ≠ cat := by
        intro e' he' heq
        have hee : e'.1 = e.1 := heq.trans hc.symm
        exact hnd.1 (hee ▸ List.mem_map_of_mem Prod.fst he')
      rw [List.foldl_cons, reportLookup_fold_notin rset es _ cat hnotin]
      have hstep := reportLookup_step_self rset rd e
      rw [hc] at hstep
      rw [hstep]
      have hget : dictGet (e :: es) cat = some e.2 := by
        unfold dictGet
        have hbeq : (e.1 == cat) = true := by simp [hc]
        simp only [List.find?_cons, hbeq]
        rfl
      rw [hget]
    · rw [List.foldl_cons, ih _ hnd.2]
      have hget : dictGet (e :: es) cat = dictGet es cat := by
        unfold dictGet
        have hbeq : (e.1 == cat) = false := by simp [hc]
        simp only [List.find?_cons, hbeq]
      rw [hget, reportLookup_step_ne rset rd e cat hc]

theorem procKeywords_eq (rset : List String) (kws : List String) :
    ∀ a b : List String, procKeywords (a, b) rset kws =
      (a ++ kws.filter fun kw => rset.contains (lowerStr kw),
       b ++ kws.filter fun kw => !rset.contains (lowerStr kw)) := by
  induction kws with
  | nil => intro a b; simp [procKeywords]
  | cons k ks ih =>
    intro a b
    by_cases hk : rset.contains (lowerStr k) = true
    · have hstep : procKeywords (a, b) rset (k :: ks) =
          procKeywords (a ++ [k], b) rset ks := by
        unfold procKeywords
        rw [List.foldl_cons]
        simp only [hk, if_true]
      rw [hstep, ih]
      have hmem : lowerStr k ∈ rset := by simpa using hk
      simp [List.filter_cons, hmem, List.append_assoc]
    · have hk' : rset.contains (lowerStr k) = false := by simpa using hk
      have hstep : procKeywords (a, b) rset (k :: ks) =
          procKeywords (a, b ++ [k]) rset ks := by
        unfold procKeywords
        rw [List.foldl_cons]
        simp only [hk', Bool.false_eq_true, if_false]
      rw [hstep, ih]
      have hmem : lowerStr k ∉ rset := by simpa using hk'
      simp [List.filter_cons, hmem, List.append_assoc]

theorem filter_partition_length {α : Type} (p : α → Bool) (l : List α) :
    (l.filter p).length + (l.filter fun x => !p x).length = l.length := by
  induction l with
  | nil => rfl
  | cons x xs ih =>
    by_cases hx : p x = true
    · simp only [List.filter_cons, hx, if_true, Bool.not_true, Bool.false_eq_true,
        if_false, List.length_cons]
      omega
    · have hx' : p x = false := by simpa using hx
      simp only [List.filter_cons, hx', Bool.not_false, if_true, Bool.false_eq_true,
        if_false, List.length_cons]
      omega

/-- All occurrences of a category's keywords across the two tiers, in
processing order (required first, then preferred). -/
def catOccurrences (jd : JDKeywords) (cat : String) : List String :=
  (dictGet jd.required cat).getD [] ++ (dictGet jd.preferred cat).getD []

/-- **C10.** For a category present in at least one tier of a Job Keyword
Requirement (tier keys unique, as Python dict keys are), the report
record for that category is exactly the partition of all its keyword
occurrences: `matched` holds the occurrences whose lowercased form is in
the resume's lowercased keyword set, `missing` the rest — so every
occurrence lands in exactly one of the two lists (their lengths add up to
the occurrence count), and occurrences from both tiers accumulate into
the one shared record, a keyword listed in both tiers appearing twice. -/
theorem buildReport_characterization (jd : JDKeywords) (rset : List String)
    (cat : String)
    (hndR : (jd.required.map Prod.fst).Nodup)
    (hndP : (jd.preferred.map Prod.fst).Nodup)
    (hmem : (dictGet jd.required cat).isSome = true ∨
      (dictGet jd.preferred cat).isSome = true) :
    reportLookup (buildReport jd rset) cat =
      some ((catOccurrences jd cat).filter fun kw => rset.contains (lowerStr kw),
        (catOccurrences jd cat).filter fun kw => !rset.contains (lowerStr kw)) ∧
    ((catOccurrences jd cat).filter fun kw => rset.contains (lowerStr kw)).length +
        ((catOccurrences jd cat).filter fun kw =>
          !rset.contains (lowerStr kw)).length =
      (catOccurrences jd cat).length := by
  refine ⟨?_, filter_partition_length _ _⟩
  unfold buildReport
  rw [List.foldl_append]
  rw [reportLookup_fold_tier rset jd.preferred _ cat hndP]
  rw [reportLookup_fold_tier rset jd.required _ cat hndR]
  have hinit : reportLookup (⟨[], []⟩ : ReportDetails) cat = none := by
    unfold reportLookup dictGet
    split <;> rfl
  rw [hinit]
  unfold catOccurrences
  cases hR : dictGet jd.required cat with
  | some kR =>
    cases hP : dictGet jd.preferred cat with
    | some kP =>
      simp only [Option.getD_some, Option.getD_none]
      rw [procKeywords_eq, procKeywords_eq]
      simp [List.filter_append]
    | none =>
      simp only [Option.getD_some, Option.getD_none]
      rw [procKeywords_eq]
      simp
  | none =>
    cases hP : dictGet jd.preferred cat with
    | some kP =>
      simp only [Option.getD_some, Option.getD_none]
      rw [procKeywords_eq]
      simp
    | none =>
      rw [hR, hP] at hmem
      simp at hmem

def jd10 : JDKeywords :=
  ⟨[("hard_skills", ["Python"]), ("tools_and_platforms", []),
    ("methodologies_and_frameworks", [])],
   [("hard_skills", ["Python", "Go"]), ("tools_and_platforms", []),
    ("methodologies_and_frameworks", [])]⟩

theorem buildReport_characterization_witness :
    ((jd10.required.map Prod.fst).Nodup ∧ (jd10.preferred.map Prod.fst).Nodup ∧
      (dictGet jd10.required "hard_skills").isSome = true) ∧
    (reportLookup (buildReport jd10 (resumeKeySet ["python"])) "hard_skills" =
      some ((catOccurrences jd10 "hard_skills").filter fun kw =>
          (resumeKeySet ["python"]).contains (lowerStr kw),
        (catOccurrences jd10 "hard_skills").filter fun kw =>
          !(resumeKeySet ["python"]).contains (lowerStr kw)) ∧
    ((catOccurrences jd10 "hard_skills").filter fun kw =>
        (resumeKeySet ["python"]).contains (lowerStr kw)).length +
      ((catOccurrences jd10 "hard_skills").filter fun kw =>
        !(resumeKeySet ["python"]).contains (lowerStr kw)).length =
      (catOccurrences jd10 "hard_skills").length) :=
  ⟨⟨by decide, by decide, by decide⟩,
    buildReport_characterization jd10 (resumeKeySet ["python"]) "hard_skills"
      (by decide) (by decide) (Or.inl (by decide))⟩

theorem summary_boundary_recorded_witness :
    (find_section_boundaries (["Alice", "Profile Summary"].take 1)).summary = none ∧
    (find_section_boundaries (["Alice", "Profile Summary"].take (1 + 1))).summary =
      some 1 :=
  ⟨by decide,
    summary_boundary_recorded ["Alice", "Profile Summary"] 1 (by decide) (by decide)
      (by decide) (by decide) (by decide) (by decide)⟩

/-! ## The remaining extractors and `parse_resume` (C4)

These complete the embedding of `UniversalResumeParser` so that the
assembled Resume Record can be stated about.  Python's `set` of
certifications has unspecified iteration order; the model keeps insertion
order (the set's *content* is faithful). -/

/-- `str.split(c)` (single-character separator, empties kept). -/
def splitCharAux (c : Char) : List Char → List Char → List (List Char)
  | acc, [] => [acc.reverse]
  | acc, x :: xs =>
    if x == c then acc.reverse :: splitCharAux c [] xs
    else splitCharAux c (x :: acc) xs

/-- `[line.strip() for line in resume_text.split('\n') if line.strip()]`. -/
def linesOf (text : String) : List String :=
  (((splitCharAux '\n' [] text.data).map pyStrip).filter fun l => !l.isEmpty).map
    fun l => (⟨l⟩ : String)

/-- `str.split()` with no argument: split on whitespace runs, no empties. -/
def pyWordsAux : List Char → List Char → List (List Char)
  | acc, [] => if acc.isEmpty then [] else [acc.reverse]
  | acc, c :: cs =>
    if isPySpace c then
      if acc.isEmpty then pyWordsAux [] cs else acc.reverse :: pyWordsAux [] cs
    else pyWordsAux (c :: acc) cs

def wordCount (s : String) : Nat := (pyWordsAux [] s.data).length

/-- `' '.join(strings)`. -/
def joinSpace (ls : List String) : String :=
  ⟨(List.intercalate [' '] (ls.map String.data))⟩

/-- `list(dict.fromkeys(l))`: deduplicate keeping first occurrences. -/
def dedupAux : Nat → List String → List String
  | 0, _ => []
  | _, [] => []
  | fuel + 1, x :: xs => x :: dedupAux fuel (xs.filter fun y => y != x)

def dedupKeys (l : List String) : List String := dedupAux l.length l

/-- `section_indices.values()` (the present indices). -/
def allBounds (si : SectionIndices) : List Nat :=
  [si.experience, si.education, si.skills, si.certifications, si.projects,
    si.summary].filterMap id

def minList (l : List Nat) (dflt : Nat) : Nat :=
  match l with
  | [] => dflt
  | x :: xs => xs.foldl min x

/-! ### Summary extractor -/

/-- The first-10-lines scan of `extract_summary`: an explicit
summary-keyword line puts the start just after it; a line of more than 10
words starts the summary there. -/
def summaryStartScan : List (Nat × String) → Option Nat
  | [] => none
  | (i, line) :: rest =>
    if line != "" &&
        (["summary", "objective", "profile", "about"].any fun k =>
          occursIn k (lowerStr line)) then some (i + 1)
    else if line != "" && decide (10 < wordCount line) then some i
    else summaryStartScan rest

/-- `UniversalResumeParser.extract_summary` (the summary string; the
returned second component of the Python pair is a constant 0). -/
def extract_summary (lines : List String) (si : SectionIndices) : String :=
  if lines ≠ [] ∧ isSectionHeader (lines.headD "") = true ∧
      ¬(si.summary = some 0) then ""
  else
    let startEnd : Nat × Nat :=
      match si.summary with
      | some idx =>
        let s := idx + 1
        let next := (allBounds si).filter fun v => s < v
        (s, if next.isEmpty then lines.length else minList next lines.length)
      | none =>
        let s := (summaryStartScan (lines.take 10).enum).getD 0
        let e :=
          if (allBounds si).isEmpty then lines.length
          else
            let earliest := minList (allBounds si) lines.length
            if s < earliest then earliest else lines.length
        (s, e)
    let body := (lines.drop startEnd.1).take (startEnd.2 - startEnd.1)
    joinSpace ((body.map clean_text).filter fun cl =>
      cl != "" && !isSectionHeader cl)

/-! ### Skills extractor -/

def skillSplitRE : RE :=
  rePlus (oneOf [':', ',', '|', ';', '•', '·', '\n', '/', '\\'])

/-- `UniversalResumeParser.extract_skills`. -/
def extract_skills (lines : List String) (si : SectionIndices) : List String :=
  match si.skills with
  | none => []
  | some idx =>
    let skillsStart := idx + 1
    let skillsEnd := sectionEnd si .skills skillsStart lines.length
    let skillsLines := (lines.drop skillsStart).take (skillsEnd - skillsStart)
    let skillsText := joinSpace skillsLines
    let raw := ((reSplit skillSplitRE skillsText).map fun s =>
        (⟨pyStrip s.data⟩ : String)).filter fun s =>
      s != "" && decide (1 < s.length)
    dedupKeys (raw.filter fun s => decide (1 < s.length))

/-! ### Projects extractor -/

structure ProjEntry where
  title : String
  details : List String
deriving Repr, DecidableEq

/-- Python `str.isupper()`: at least one cased character and no
lowercase one (ASCII range, which cleaned lines are). -/
def pyIsUpper (s : String) : Bool :=
  (s.data.any fun c => isAlphaAscii c) && (s.data.all fun c => !c.isLower)

def projStep (st : List ProjEntry × ProjEntry) (rawLine : String) :
    List ProjEntry × ProjEntry :=
  let cl := clean_text rawLine
  if isSectionHeader cl || (pyIsUpper cl && decide (wordCount cl ≤ 5)) then
    if st.2.title != "" || !st.2.details.isEmpty then
      (st.1 ++ [st.2], ⟨cl, []⟩)
    else (st.1, ⟨cl, []⟩)
  else if cl != "" then (st.1, ⟨st.2.title, st.2.details ++ [cl]⟩)
  else st

/-- `UniversalResumeParser.extract_projects`. -/
def extract_projects (lines : List String) (si : SectionIndices) : List ProjEntry :=
  match si.projects with
  | none => []
  | some idx =>
    let startIdx := idx + 1
    let following := (allBounds si).filter fun v => startIdx < v
    let endIdx := if following.isEmpty then lines.length
      else minList following lines.length
    let projectLines := (lines.drop startIdx).take (endIdx - startIdx)
    let fin := projectLines.foldl projStep ([], ⟨"", []⟩)
    if fin.2.title != "" || !fin.2.details.isEmpty then fin.1 ++ [fin.2] else fin.1

/-! ### Experience extractor -/

def job_title_indicators : List String :=
  ["manager", "director", "engineer", "developer", "analyst", "specialist",
   "coordinator", "supervisor", "lead", "senior", "junior", "associate",
   "consultant", "architect", "administrator", "officer", "executive",
   "designer", "researcher", "scientist", "technician", "representative"]

def action_verbs : List String :=
  ["led", "managed", "developed", "created", "implemented", "designed",
   "analyzed", "coordinated", "supervised", "maintained", "improved",
   "increased", "decreased", "reduced", "optimized", "streamlined",
   "established", "built", "executed", "delivered", "achieved"]

/-- `(Jan|Feb|Mar|Apr|May|Jun|Jul|Aug|Sep|Oct|Nov|Dec)` (IGNORECASE). -/
def monthAbbrevRE : RE :=
  [litCI "Jan", litCI "Feb", litCI "Mar", litCI "Apr", litCI "May", litCI "Jun",
   litCI "Jul", litCI "Aug", litCI "Sep", litCI "Oct", litCI "Nov",
   litCI "Dec"].foldr RE.alt (.cls fun _ => false)

/-- The seven date patterns of `_is_job_header` (all IGNORECASE). -/
def jobHeaderDateREs : List RE :=
  [.seq monthAbbrevRE (.seq (.star reWs) (repExact reDigit 4)),
   .seq (repRange reDigit 1 2) (.seq (.cls fun c => c == '/') (repExact reDigit 4)),
   .seq (repExact reDigit 4) (.seq (.star reWs) (.seq dashChar
     (.seq (.star reWs) (repExact reDigit 4)))),
   .seq (repExact reDigit 4) (.seq (.star reWs) (.seq dashChar
     (.seq (.star reWs) (litCI "Present")))),
   litCI "Present",
   .seq (repExact reDigit 4) (.seq (.star reWs) (.seq (litCI "to")
     (.seq (.star reWs) (repExact reDigit 4)))),
   .seq (repExact reDigit 4) (.seq (.star reWs) (.seq (.cls fun c => c == '-')
     (.seq (.star reWs) (repExact reDigit 4))))]

/-- `UniversalResumeParser._is_job_header`. -/
def isJobHeader (line : String) : Bool :=
  if line == "" || decide (line.length < 10) then false
  else
    let hasDate := jobHeaderDateREs.any fun r => (reSearch line r).isSome
    if !hasDate then false
    else
      let hasSep := [" - ", " – ", " | ", ",", " at "].any fun sep =>
        occursIn sep line
      let hasTitle := job_title_indicators.any fun ind =>
        occursIn ind (lowerStr line)
      hasSep || hasTitle

/-- The first date-range pattern of `_parse_job_header` (IGNORECASE):
`((?:Jan|…|Dec)\s*\d{4}\s*[-–]\s*((?:Jan|…|Dec)\s*\d{4}|Present))`. -/
def jobDurMonthPart : RE :=
  .seq monthAbbrevRE (.seq (.star reWs) (repExact reDigit 4))

def jobDurP1 : RE :=
  .grp 1 (.seq jobDurMonthPart (.seq (.star reWs) (.seq dashChar
    (.seq (.star reWs) (.alt jobDurMonthPart (litCI "Present"))))))

def jobDurP2 : RE :=
  .grp 1 (.seq (repExact reDigit 4) (.seq (.star reWs) (.seq dashChar
    (.seq (.star reWs) (.alt (repExact reDigit 4) (litCI "Present"))))))

def jobDurP3 : RE :=
  .grp 1 (.seq (repRange reDigit 1 2) (.seq (.cls fun c => c == '/')
    (.seq (repExact reDigit 4) (.seq (.star reWs) (.seq dashChar
      (.seq (.star reWs) (.alt (.seq (repRange reDigit 1 2)
        (.seq (.cls fun c => c == '/') (repExact reDigit 4)))
        (litCI "Present"))))))))

/-- Python `str.replace(old, new)` (all occurrences, left to right). -/
def replaceAllSub (s old new : List Char) : List Char :=
  if old.isEmpty then s
  else
    let rec go : Nat → List Char → List Char
      | _, [] => []
      | 0, rest => rest
      | fuel + 1, rest =>
        if leadsList old rest then new ++ go fuel (rest.drop old.length)
        else
          match rest with
          | [] => []
          | c :: cs => c :: go fuel cs
    go s.length s

/-- `re.sub(r'\s*[-–]\s*$', '', line)`. -/
def stripTrailingDash (l : List Char) : List Char :=
  let r := l.reverse.dropWhile isPySpace
  match r with
  | c :: rest =>
    if c == '-' || c == '–' then (rest.dropWhile isPySpace).reverse else l
  | [] => l

/-- `re.sub(r'^\s*[-–]\s*', '', line)`. -/
def stripLeadingDash (l : List Char) : List Char :=
  let r := l.dropWhile isPySpace
  match r with
  | c :: rest => if c == '-' || c == '–' then rest.dropWhile isPySpace else l
  | [] => l

def upperAZ : RE := .cls fun c => ('A' ≤ c) && (c ≤ 'Z')

def alphaOrWs : RE := .cls fun c => isAlphaAscii c || isPySpace c

/-- `^(.+?),\s*([A-Z][A-Za-z\s]+)\s*[-–]\s*(.+)$` (re.match). -/
def jobSplitP1 : RE :=
  .seq (.grp 1 (lazyPlus reDot)) (.seq (.cls fun c => c == ',')
    (.seq (.star reWs) (.seq (.grp 2 (.seq upperAZ (rePlus alphaOrWs)))
      (.seq (.star reWs) (.seq dashChar (.seq (.star reWs)
        (.seq (.grp 3 (rePlus reDot)) .eos)))))))

/-- `^(.+?)\s*[-–]\s*(.+?),\s*([A-Z][A-Za-z\s]+)$` (re.match). -/
def jobSplitP2 : RE :=
  .seq (.grp 1 (lazyPlus reDot)) (.seq (.star reWs) (.seq dashChar
    (.seq (.star reWs) (.seq (.grp 2 (lazyPlus reDot))
      (.seq (.cls fun c => c == ',') (.seq (.star reWs)
        (.seq (.grp 3 (.seq upperAZ (rePlus alphaOrWs))) .eos)))))))

/-- `^(.+?)\s+at\s+(.+?)(?:,\s*(.+?))?$` (re.search with `^`, IGNORECASE). -/
def jobSplitP3 : RE :=
  .seq (.grp 1 (lazyPlus reDot)) (.seq (rePlus reWs) (.seq (litCI "at")
    (.seq (rePlus reWs) (.seq (.grp 2 (lazyPlus reDot))
      (.seq (reOpt (.seq (.cls fun c => c == ',') (.seq (.star reWs)
        (.grp 3 (lazyPlus reDot))))) .eos)))))

def company_indicators : List String :=
  ["inc", "corp", "llc", "ltd", "company", "group", "firm"]

/-- `\s*[-–]\s*` for `re.split(..., 1)`. -/
def dashSplitRE : RE :=
  .seq (.star reWs) (.seq dashChar (.star reWs))

def reSplit1 (r : RE) (s : String) : List String :=
  match reSearch s r with
  | some (st, en, _) => [⟨s.data.take st⟩, ⟨s.data.drop en⟩]
  | none => [s]

/-- `UniversalResumeParser._parse_job_header`. -/
def parseJobHeader (line0 : String) : JobEntry :=
  let durLine : String × String :=
    match reSearch line0 jobDurP1 with
    | some (_, _, cps) =>
      let d := (capGroup line0.data cps 1).getD ""
      (⟨pyStrip d.data⟩, ⟨pyStrip (replaceAllSub line0.data d.data []) ⟩)
    | none =>
      match reSearch line0 jobDurP2 with
      | some (_, _, cps) =>
        let d := (capGroup line0.data cps 1).getD ""
        (⟨pyStrip d.data⟩, ⟨pyStrip (replaceAllSub line0.data d.data [])⟩)
      | none =>
        match reSearch line0 jobDurP3 with
        | some (_, _, cps) =>
          let d := (capGroup line0.data cps 1).getD ""
          (⟨pyStrip d.data⟩, ⟨pyStrip (replaceAllSub line0.data d.data [])⟩)
        | none => ("", line0)
  let duration := durLine.1
  let line : String := ⟨stripLeadingDash (stripTrailingDash durLine.2.data)⟩
  match reMatchStart line jobSplitP1 with
  | some (_, _, cps) =>
    ⟨(⟨pyStrip ((capGroup line.data cps 1).getD "").data⟩ : String),
      (⟨pyStrip ((capGroup line.data cps 3).getD "").data⟩ : String),
      (⟨pyStrip ((capGroup line.data cps 2).getD "").data⟩ : String), duration, []⟩
  | none =>
  match reMatchStart line jobSplitP2 with
  | some (_, _, cps) =>
    ⟨(⟨pyStrip ((capGroup line.data cps 1).getD "").data⟩ : String),
      (⟨pyStrip ((capGroup line.data cps 2).getD "").data⟩ : String),
      (⟨pyStrip ((capGroup line.data cps 3).getD "").data⟩ : String), duration, []⟩
  | none =>
  match reMatchStart line jobSplitP3 with
  | some (_, _, cps) =>
    let loc := match capGroup line.data cps 3 with
      | some g => (⟨pyStrip g.data⟩ : String)
      | none => ""
    ⟨(⟨pyStrip ((capGroup line.data cps 2).getD "").data⟩ : String),
      (⟨pyStrip ((capGroup line.data cps 1).getD "").data⟩ : String),
      loc, duration, []⟩
  | none =>
    let viaDash : JobEntry :=
      if occursIn " - " line || occursIn " – " line then
        match reSplit1 dashSplitRE line with
        | [p1, p2] =>
          let part1 : String := ⟨pyStrip p1.data⟩
          let part2 : String := ⟨pyStrip p2.data⟩
          if company_indicators.any fun ind => occursIn ind (lowerStr part1) then
            ⟨part1, part2, "", duration, []⟩
          else
            ⟨part1, part2, "", duration, []⟩
        | _ => ⟨"", "", "", duration, []⟩
      else ⟨"", "", "", duration, []⟩
    if viaDash.company == "" && viaDash.title == "" then
      ⟨viaDash.company, line, viaDash.location, duration, []⟩
    else viaDash

/-- `UniversalResumeParser._is_responsibility_line`. -/
def isResponsibilityLine (line : String) : Bool :=
  if decide (wordCount line < 4) then false
  else if isSectionHeader line then false
  else (action_verbs.any fun v => occursIn v (lowerStr line)) ||
    decide (8 < wordCount line)

def startsBullet (s : String) : Bool :=
  match s.data with
  | c :: _ => c == '•' || c == '-' || c == '*'
  | [] => false

def appendToLast (l : List String) (suffix : String) : List String :=
  match l.getLast? with
  | some last => l.dropLast ++ [last ++ suffix]
  | none => l

/-- One iteration of the `for line in exp_lines` loop of
`extract_experience`. -/
def expStep (st : List JobEntry × Option JobEntry) (rawLine : String) :
    List JobEntry × Option JobEntry :=
  let line := clean_text rawLine
  if line == "" then st
  else if isJobHeader line then
    (st.1 ++ (match st.2 with | some j => [j] | none => []),
      some (parseJobHeader line))
  else
    match st.2 with
    | none => st
    | some cur =>
      if startsBullet line || isResponsibilityLine line then
        let resp := clean_text
          ⟨pyStrip (line.data.dropWhile fun c => c == '•' || c == '-' || c == '*')⟩
        if resp == "" then st
        else (st.1, some ⟨cur.company, cur.title, cur.location, cur.duration,
          cur.responsibilities ++ [resp]⟩)
      else if !isJobHeader line && decide (3 < wordCount line) then
        if !cur.responsibilities.isEmpty then
          match line.data with
          | c :: _ =>
            if c.isLower then
              (st.1, some ⟨cur.company, cur.title, cur.location, cur.duration,
                appendToLast cur.responsibilities (" " ++ line)⟩)
            else
              (st.1, some ⟨cur.company, cur.title, cur.location, cur.duration,
                cur.responsibilities ++ [line]⟩)
          | [] => st
        else
          (st.1, some ⟨cur.company, cur.title, cur.location, cur.duration,
            cur.responsibilities ++ [line]⟩)
      else st

/-- `UniversalResumeParser.extract_experience`. -/
def extract_experience (lines : List String) (si : SectionIndices) : List JobEntry :=
  match si.experience with
  | none => []
  | some idx =>
    let expStart := idx + 1
    let expEnd := sectionEnd si .experience expStart lines.length
    let expLines := (lines.drop expStart).take (expEnd - expStart)
    let fin := expLines.foldl expStep ([], none)
    fin.1 ++ (match fin.2 with | some j => [j] | none => [])

/-! ### Contact info extractor -/

structure ContactInfo where
  name : String
  phone : String
  email : String
  linkedin : String
  location : String
  github : String
  website : String
deriving Repr, DecidableEq

def emailLocalChar (c : Char) : Bool :=
  isAlphaAscii c || c.isDigit || c == '.' || c == '_' || c == '%' || c == '+' ||
    c == '-'

def emailDomChar (c : Char) : Bool := isAlphaAscii c || c.isDigit || c == '.' || c == '-'

/-- `\b[A-Za-z0-9._%+-]+@[A-Za-z0-9.-]+\.[A-Za-z]{2,}\b`. -/
def emailRE : RE :=
  .seq .wordB (.seq (rePlus (.cls emailLocalChar)) (.seq (.cls fun c => c == '@')
    (.seq (rePlus (.cls emailDomChar)) (.seq (.cls fun c => c == '.')
      (.seq (repAtLeast reAlpha 2) .wordB)))))

def phoneSep : RE := .cls fun c => c == '-' || c == '.' || isPySpace c

/-- `\(?\d{3}\)?[-.\s]?\d{3}[-.\s]?\d{4}`. -/
def phoneRE1 : RE :=
  .seq (reOpt (.cls fun c => c == '(')) (.seq (repExact reDigit 3)
    (.seq (reOpt (.cls fun c => c == ')')) (.seq (reOpt phoneSep)
      (.seq (repExact reDigit 3) (.seq (reOpt phoneSep) (repExact reDigit 4))))))

/-- `\+\d{1,3}[-.\s]?\d{1,4}[-.\s]?\d{3}[-.\s]?\d{3,4}`. -/
def phoneRE2 : RE :=
  .seq (.cls fun c => c == '+') (.seq (repRange reDigit 1 3)
    (.seq (reOpt phoneSep) (.seq (repRange reDigit 1 4) (.seq (reOpt phoneSep)
      (.seq (repExact reDigit 3) (.seq (reOpt phoneSep) (repRange reDigit 3 4)))))))

def handleChar (c : Char) : Bool :=
  isAlphaAscii c || c.isDigit || c == '_' || c == '-'

def linkedinRE1 : RE := .seq (litCI "linkedin.com/in/") (rePlus (.cls handleChar))

def linkedinRE2 : RE := .seq (litCI "linkedin.com/pub/") (rePlus (.cls handleChar))

def githubRE : RE := .seq (litCI "github.com/") (rePlus (.cls handleChar))

/-- `https?:\/\/[^\s]+`. -/
def websiteRE : RE :=
  .seq (lit "http") (.seq (reOpt (.cls fun c => c == 's'))
    (.seq (lit "://") (rePlus (.cls fun c => !isPySpace c))))

/-- `m.group()` of a search result over `s`. -/
def matchedStr (s : String) (m : Option (Nat × Nat × Caps)) : String :=
  match m with
  | some (st, en, _) => ⟨subChars s.data st en⟩
  | none => ""

/-- `UniversalResumeParser.extract_contact_info` (name and location are
deliberately left empty by the source). -/
def extract_contact_info (text : String) : ContactInfo :=
  let email := matchedStr text (reSearch text emailRE)
  let phone :=
    match reSearch text phoneRE1 with
    | some m => matchedStr text (some m)
    | none => matchedStr text (reSearch text phoneRE2)
  let linkedin :=
    match reSearch text linkedinRE1 with
    | some m => matchedStr text (some m)
    | none => matchedStr text (reSearch text linkedinRE2)
  let github := matchedStr text (reSearch text githubRE)
  let website :=
    match reSearch text websiteRE with
    | some m =>
      let site := matchedStr text (some m)
      if ["linkedin", "github"].any fun x => occursIn x site then ""
      else site
    | none => ""
  ⟨"", phone, email, linkedin, "", github, website⟩

/-! ### Certifications extractor -/

/-- `\([^)]*\)`. -/
def parenRE : RE :=
  .seq (.cls fun c => c == '(') (.seq (.star (.cls fun c => c != ')'))
    (.cls fun c => c == ')'))

/-- `\d{4}`. -/
def year4RE : RE := repExact reDigit 4

def replaceSpans (s repl : List Char) : Nat → List (Nat × Nat × Caps) → List Char
  | i, [] => s.drop i
  | i, (st, en, _) :: ms => (s.drop i).take (st - i) ++ repl ++ replaceSpans s repl en ms

/-- `re.sub(pattern, '', s)` for never-empty patterns. -/
def reSubAll (r : RE) (s : String) : String :=
  ⟨replaceSpans s.data [] 0 (findAllRe s r)⟩

def nonCommaNl : RE := .cls fun c => c != ',' && c != '\n'

/-- Any ASCII letter: under `re.IGNORECASE` the classes `[A-Z]` and
`[A-Za-z]` both match letters of either case. -/
def anyAlpha : RE := .cls isAlphaAscii

/-- The whole-document certification pattern library (all IGNORECASE,
so the `[A-Z]` classes match any letter). -/
def certPatternREs : List RE :=
  [.grp 1 (.seq anyAlpha (.seq (rePlus alphaOrWs)
     (.alt (litCI "Certified") (.alt (litCI "Certification") (litCI "Certificate"))))),
   .grp 1 ([litCI "PMP", litCI "PMI", litCI "CISSP", litCI "CISA", litCI "CISM",
     litCI "CPA", litCI "CFA", litCI "FRM", litCI "SHRM",
     litCI "PHR"].foldr RE.alt (.cls fun _ => false)),
   .grp 1 (.seq (rePlus anyAlpha) (.seq (rePlus reWs) (.seq (litCI "Certified")
     (.seq (rePlus reWs) (rePlus alphaOrWs))))),
   .grp 1 (.seq (litCI "Microsoft") (.seq (rePlus reWs) (.seq (litCI "Certified")
     (.seq (rePlus reWs) (rePlus nonCommaNl))))),
   .grp 1 (.seq (litCI "AWS") (.seq (rePlus reWs) (.seq (litCI "Certified")
     (.seq (rePlus reWs) (rePlus nonCommaNl))))),
   .grp 1 (.seq (litCI "Google") (.seq (rePlus reWs) (.seq (rePlus nonCommaNl)
     (.seq (rePlus reWs) (litCI "Certificate"))))),
   .grp 1 (.seq (litCI "CompTIA") (.seq (rePlus reWs) (rePlus anyAlpha))),
   .grp 1 (.seq (litCI "Cisco") (.seq (rePlus reWs) (rePlus anyAlpha))),
   .grp 1 (.seq (litCI "Oracle") (.seq (rePlus reWs) (.seq (litCI "Certified")
     (.seq (rePlus reWs) (rePlus nonCommaNl))))),
   .grp 1 (.seq (litCI "Salesforce") (.seq (rePlus reWs) (.seq (litCI "Certified")
     (.seq (rePlus reWs) (rePlus nonCommaNl)))))]

def cert_delimiters : List Char := ['|', ',', ';', '\n', '•', '·']

/-- The section-scoped pass of `extract_certifications`: split on the
first delimiter present, strip parentheticals and 4-digit years. -/
def certSectionPass (lines : List String) (si : SectionIndices) : List String :=
  match si.certifications with
  | none => []
  | some idx =>
    let certStart := idx + 1
    let certEnd := sectionEnd si .certifications certStart lines.length
    let certLines := (lines.drop certStart).take (certEnd - certStart)
    let certText := joinSpace certLines
    match cert_delimiters.find? (fun d => certText.data.contains d) with
    | none => []
    | some d =>
      ((splitCharAux d [] certText.data).map fun c =>
          (⟨pyStrip c⟩ : String)).filterMap fun cert =>
        if cert != "" && decide (3 < cert.length) then
          let c1 : String := ⟨pyStrip (reSubAll parenRE cert).data⟩
          let c2 : String := ⟨pyStrip (reSubAll year4RE c1).data⟩
          if c2 != "" then some c2 else none
        else none

/-- `UniversalResumeParser.extract_certifications`.  The Python function
accumulates into a `set` whose iteration order is unspecified; the model
keeps first-insertion order (section pass first, then the pattern
library), deduplicated. -/
def extract_certifications (lines : List String) (si : SectionIndices)
    (fullText : String) : List String :=
  let fromSection := certSectionPass lines si
  let fromPatterns := certPatternREs.flatMap fun r =>
    (findAllRe fullText r).filterMap fun m =>
      match capGroup fullText.data m.2.2 1 with
      | some g =>
        let cl : String := ⟨pyStrip g.data⟩
        if decide (3 < cl.length) then some cl else none
      | none => none
  dedupKeys (fromSection ++ fromPatterns)

/-! ### The assembled Resume Record -/

structure ResumeRecord where
  file_name : String
  name : String
  phone : String
  email : String
  linkedin : String
  location : String
  github : String
  website : String
  summary : String
  total_experience_years : String
  current_title : String
  experiences : List JobEntry
  education : List EduEntry
  certifications : List String
  skills : List String
  projects : List ProjEntry
  all_skills_text : String
  all_experience_text : String
  all_project_text : String
  all_education_text : String
  all_certifications_text : String
  searchable_content : String
  searchable_ollama_content : String
  parsing_timestamp : String
  parser_version : String
deriving Repr, DecidableEq

/-- `UniversalResumeParser.parse_resume`.  `now` models `datetime.now()`
for the tenure aggregator and `nowIso` the metadata timestamp string. -/
def parse_resume (resume_text : String) (file_name : String) (now : MonthDate)
    (nowIso : String) : ResumeRecord :=
  let contact := extract_contact_info resume_text
  let lines := linesOf resume_text
  let si := find_section_boundaries lines
  let summary := extract_summary lines si
  let experiences := extract_experience lines si
  let education := extract_education lines si
  let projects := extract_projects lines si
  let certifications := extract_certifications lines si resume_text
  let skills := extract_skills lines si
  let current_title := match experiences with
    | e :: _ => e.title
    | [] => ""
  let total := calculate_total_experience experiences now
  let all_skills_text := joinSpace skills
  let all_experience_text :=
    joinSpace (experiences.map fun e => joinSpace e.responsibilities)
  let all_project_text := joinSpace (projects.map fun p => joinSpace p.details)
  let all_education_text :=
    joinSpace (education.map fun e => e.institution ++ " " ++ e.degree ++ e.gpa)
  let all_certifications_text := joinSpace certifications
  let searchable_content := joinSpace [summary, all_skills_text,
    all_experience_text, all_project_text, all_certifications_text]
  let searchable_ollama_content := joinSpace [summary, all_experience_text,
    all_project_text, all_skills_text]
  ⟨file_name, contact.name, contact.phone, contact.email, contact.linkedin,
    contact.location, contact.github, contact.website, summary, total,
    current_title, experiences, education, certifications, skills, projects,
    all_skills_text, all_experience_text, all_project_text, all_education_text,
    all_certifications_text, searchable_content, searchable_ollama_content,
    nowIso, "2.0"⟩

/-- **C4.** `parse_resume` is a total function (every extractor is total,
returning possibly-empty strings/lists — the model has no failure path),
and for every input whose line sequence yields no detected section
boundary, the record is still assembled, valid and mostly empty: the
section-scoped fields are empty, the current title is empty, and the
tenure string is "0 years, 0 months". -/
theorem parse_resume_no_sections (text name : String) (now : MonthDate) (ts : String)
    (h : find_section_boundaries (linesOf text) = emptyBounds) :
    (parse_resume text name now ts).file_name = name ∧
    (parse_resume text name now ts).experiences = [] ∧
    (parse_resume text name now ts).education = [] ∧
    (parse_resume text name now ts).projects = [] ∧
    (parse_resume text name now ts).skills = [] ∧
    (parse_resume text name now ts).current_title = "" ∧
    (parse_resume text name now ts).total_experience_years = "0 years, 0 months" ∧
    (parse_resume text name now ts).parser_version = "2.0" := by
  have hexp : extract_experience (linesOf text)
      (find_section_boundaries (linesOf text)) = [] := by rw [h]; rfl
  have hedu : extract_education (linesOf text)
      (find_section_boundaries (linesOf text)) = [] := by rw [h]; rfl
  have hproj : extract_projects (linesOf text)
      (find_section_boundaries (linesOf text)) = [] := by rw [h]; rfl
  have hsk : extract_skills (linesOf text)
      (find_section_boundaries (linesOf text)) = [] := by rw [h]; rfl
  refine ⟨rfl, hexp, hedu, hproj, hsk, ?_, ?_, rfl⟩
  · show (match extract_experience (linesOf text)
        (find_section_boundaries (linesOf text)) with
      | e :: _ => e.title
      | [] => "") = ""
    rw [hexp]
  · show calculate_total_experience (extract_experience (linesOf text)
      (find_section_boundaries (linesOf text))) now = "0 years, 0 months"
    rw [hexp]
    rfl

theorem parse_resume_no_sections_witness :
    find_section_boundaries (linesOf "hello world") = emptyBounds ∧
    ((parse_resume "hello world" "r.pdf" ⟨2026, 10⟩ "t").experiences = [] ∧
      (parse_resume "hello world" "r.pdf" ⟨2026, 10⟩ "t").current_title = "" ∧
      (parse_resume "hello world" "r.pdf" ⟨2026, 10⟩ "t").total_experience_years =
        "0 years, 0 months") :=
  ⟨by decide,
    let h := parse_resume_no_sections "hello world" "r.pdf" ⟨2026, 10⟩ "t" (by decide)
    ⟨h.2.1, h.2.2.2.2.2.1, h.2.2.2.2.2.2.1⟩⟩
